import Mathlib

/-!
Shallow embedding of the move-search core of blupig-gomoku
(`src/ai/negamax.cc`) and verification of its specification.

Modelling conventions:
* The board (`const char *gs` in C) is a `List Int` of length `size * size`,
  indexed by `size * r + c`; machine `int`s are modelled as unbounded `Int`
  (no intermediate value in the search can overflow 32 bits for evaluators
  bounded by `int`, and all constants are written out exactly).
* The external collaborators of the search core (position evaluator,
  remoteness predicate, the two score thresholds, and the process-wide
  board size) are fields of an `Env` parameter: the core is verified for
  every instantiation of them, matching their "external interface" role.
* In-place board mutation is explicit state passing: every search function
  returns the board it finished with, so restoration claims become
  equalities between the input and output boards.
* The statement `score *= 0.95f` (C `float` arithmetic) is modelled exactly:
  `0.95f` is the IEEE-754 single `15938355 / 2^24`, and `fmul095` performs
  the conversion of the `int` to `float`, the rounded multiplication and the
  truncating cast back, all in integer arithmetic (round to nearest, ties to
  even, 24-bit significand); this is exact for every `int` input.
-/

/-- Candidate move record, mirroring `RenjuAINegamax::Move`.  The struct
itself is declared in `negamax.h` (not part of the sources); its fields are
taken from the uses in `negamax.cc` and §3 of the design document.
`actual_score` is initialised to 0 on generation (the C field is simply
uninitialised there and only read after being written by the search loop). -/
structure Move where
  r : Int
  c : Int
  heuristic_val : Int
  actual_score : Int
deriving DecidableEq, Repr

/-- Default value standing for a C read of an element of an empty vector
(`(*moves_opponent)[0]` is unchecked in the source); shown unreachable in
the safety claim about that access. -/
def defaultMove : Move := ⟨0, 0, 0, 0⟩

/-- Environment of external collaborators of the search core: the position
evaluator (`RenjuAIEval::evalMove` / `evalState`), the remoteness predicate
(`RenjuAIUtils::remoteCell`), the two score thresholds from `eval.h`, and
the process-wide board size `g_board_size`.  None of them is part of the
verified sources; the theorems hold for every instantiation. -/
structure Env where
  size : Nat
  evalMove : List Int → Int → Int → Int → Int
  evalState : List Int → Int → Int
  remoteCell : List Int → Int → Int → Bool
  winningScore : Int
  threateningScore : Int

/-- Modelled from the spec: board utility `getCell(board, r, c)`, a primitive
read of cell `(r, c)`, stored at flat index `size * r + c` exactly as the
direct accesses `gs[g_board_size * r + c]` in `negamax.cc` do. -/
def getCell (N : Nat) (gs : List Int) (r c : Int) : Int :=
  gs.getD ((N : Int) * r + c).toNat 0

/-- Modelled from the spec: board utility `setCell(board, r, c, v)`, a
primitive write of cell `(r, c)` at flat index `size * r + c`. -/
def setCell (N : Nat) (gs : List Int) (r c v : Int) : List Int :=
  gs.set ((N : Int) * r + c).toNat v

/-- Occupied-cell count of the driver (`for (i < gs_size) if (_gs[i] != 0) _cnt++`). -/
def countOccupied (N : Nat) (gs : List Int) : Nat :=
  ((List.range (N * N)).filter (fun i => gs.getD i 0 ≠ 0)).length

/-- Round `m / 2^s` to the nearest integer, ties to even (the IEEE-754
default rounding used by the C `float` multiplication being modelled). -/
def rneDiv (m s : Nat) : Nat :=
  if s = 0 then m
  else
    let q := m / 2 ^ s
    let r := m % 2 ^ s
    let h := 2 ^ (s - 1)
    if h < r then q + 1 else if r < h then q else if q % 2 = 0 then q else q + 1

/-- Base-2 logarithm by structural recursion on a fuel argument (the fuel
64 used below dominates the bit length of every value the pipeline sees,
which is far below `2 ^ 64`); agrees with `Nat.log2` there. -/
def log2Fuel : Nat → Nat → Nat
  | 0, _ => 0
  | fuel + 1, n => if n < 2 then 0 else log2Fuel fuel (n / 2) + 1

/-- Round a natural number to 24 significant bits (value of rounding the
real `p` to IEEE-754 single precision; exponent range is irrelevant at
`int` magnitudes). -/
def roundTo24 (p : Nat) : Nat :=
  if p < 2 ^ 24 then p
  else
    let s := log2Fuel 64 p - 23
    rneDiv p s * 2 ^ s

/-- Exact value of the C expression `(int)((float)x * 0.95f)` for `x ≥ 0`:
convert to `float` (round to 24 bits), multiply by `0.95f = 15938355 / 2^24`
with one more rounding, then truncate toward zero. -/
def fmul095 (x : Int) : Int :=
  (roundTo24 (roundTo24 x.toNat * 15938355) / 2 ^ 24 : Nat)

/-- Exact value of a C `int`-to-`float` conversion: round to nearest even
at 24 significant bits, preserving the sign (exact for every `int`). -/
def intToFloat (x : Int) : Int :=
  if 0 ≤ x then (roundTo24 x.toNat : Int) else -(roundTo24 (-x).toNat : Int)

/-- Score decay step `if (score >= 10) score *= kScoreDecayFactor;` with
`kScoreDecayFactor = 0.95f` (lines 171 and 194–195 of `negamax.cc`). -/
def decayScore (x : Int) : Int :=
  if 10 ≤ x then fmul095 x else x

/-- Modelled from the spec: the ordering `std::sort` uses on `Move`
(`operator<`, declared in the missing `negamax.h`) — §3: "Moves are totally
ordered by `heuristic_val` descending ... natural ordering used by the
Candidate Generator's sort". -/
def movesLE (a b : Move) : Prop :=
  b.heuristic_val ≤ a.heuristic_val

instance : DecidableRel movesLE :=
  fun a b => inferInstanceAs (Decidable (b.heuristic_val ≤ a.heuristic_val))

instance : IsTotal Move movesLE :=
  ⟨fun a b => le_total b.heuristic_val a.heuristic_val⟩

instance : IsTrans Move movesLE :=
  ⟨fun _ _ _ h1 h2 => le_trans h2 h1⟩

/-- Bounding-box accumulator of `searchMovesOrdered` (`min_r`, `min_c`,
`max_r`, `max_c`, initialised to `INT_MAX` / `INT_MIN`). -/
structure Box where
  minR : Int
  minC : Int
  maxR : Int
  maxC : Int
deriving DecidableEq, Repr

/-- Cell visit of the bounding-box scan (lines 228–233): widen the extent
on an occupied cell. -/
def boxStep (N : Nat) (gs : List Int) (b : Box) (r c : Nat) : Box :=
  if gs.getD (N * r + c) 0 ≠ 0 then
    { minR := if (r : Int) < b.minR then r else b.minR
      minC := if (c : Int) < b.minC then c else b.minC
      maxR := if b.maxR < (r : Int) then r else b.maxR
      maxC := if b.maxC < (c : Int) then c else b.maxC }
  else b

/-- Bounding-box scan of `searchMovesOrdered` (lines 225–235): fold over all
cells in row-major order updating the extent on every occupied cell. -/
def boxScan (N : Nat) (gs : List Int) : Box :=
  (List.range N).foldl (fun b r =>
    (List.range N).foldl (fun b c => boxStep N gs b r c) b)
    ⟨2147483647, 2147483647, -2147483648, -2147483648⟩

/-- Inclusive integer range `[lo, hi]` as a list (the `for (r = lo; r <= hi; ++r)`
iteration space; empty when `hi < lo`). -/
def intRange (lo hi : Int) : List Int :=
  (List.range (hi + 1 - lo).toNat).map (fun (i : Nat) => lo + (i : Int))

/-- Cell visit of the generation scan (lines 245–259): keep an empty
non-remote cell, scored by `evalMove` for `player`, appended to the result. -/
def scanStep (env : Env) (gs : List Int) (player : Int) (acc : List Move) (r c : Int) : List Move :=
  if getCell env.size gs r c ≠ 0 then acc
  else if env.remoteCell gs r c then acc
  else acc ++ [⟨r, c, env.evalMove gs r c player, 0⟩]

/-- Row-major scan of the expanded bounding box (lines 243–261). -/
def scanCells (env : Env) (gs : List Int) (player : Int) (rows cols : List Int) : List Move :=
  rows.foldl (fun acc r => cols.foldl (fun acc c => scanStep env gs player acc r c) acc) []

/-- Unsorted candidate generation of `searchMovesOrdered` (lines 225–261):
bounding box of the occupied cells, clamped expansion by 2, then a scan
keeping empty non-remote cells scored by `evalMove` for `player`. -/
def genMoves (env : Env) (gs : List Int) (player : Int) : List Move :=
  let N := env.size
  let b := boxScan N gs
  let minR := if b.minR - 2 < 0 then 2 else b.minR
  let minC := if b.minC - 2 < 0 then 2 else b.minC
  let maxR := if (N : Int) ≤ b.maxR + 2 then (N : Int) - 3 else b.maxR
  let maxC := if (N : Int) ≤ b.maxC + 2 then (N : Int) - 3 else b.maxC
  scanCells env gs player (intRange (minR - 2) (maxR + 2)) (intRange (minC - 2) (maxC + 2))

/-- Full `RenjuAINegamax::searchMovesOrdered` (lines 221–264): generate and
sort descending by `heuristic_val` (a stable structurally-recursive sort
standing in for `std::sort` with the same comparator). -/
def searchMovesOrdered (env : Env) (gs : List Int) (player : Int) : List Move :=
  List.insertionSort movesLE (genMoves env gs player)

/-- Result record of one (recursive) `heuristicNegamax` call: returned score,
the board after the call (mutated in place in C), the contents of the
`move_r` / `move_c` output slots, and the node counter `g_node_count`. -/
structure SRes where
  score : Int
  board : List Int
  mrc : Int × Int
  nodes : Nat
deriving DecidableEq, Repr

/-- State threaded through the candidate loop of `heuristicNegamax`
(lines 152–198): the board, `max_score`, `alpha`, the move-output slots,
the node counter, and the `actual_score` written back into
`candidate_moves[0]` (the only stored-back score read after the loop). -/
structure LoopState where
  board : List Int
  maxScore : Int
  alpha : Int
  mrc : Int × Int
  nodes : Nat
  firstActual : Option Int
deriving DecidableEq, Repr

/-- Candidate loop of `heuristicNegamax` (lines 152–198).  `step` is the
recursive call at `depth - 1` (a function of board, alpha, beta and node
counter, returning score, board and node counter); the child's move-output
pointers are null so nothing of the child's move tracking is kept.  A true
alpha-beta break ends the loop after the current iteration. -/
def loopCands (N : Nat) (step : List Int → Int → Int → Nat → Int × List Int × Nat)
    (player : Int) (ab : Bool) (beta : Int) : List Move → LoopState → LoopState
  | [], st => st
  | m :: rest, st =>
    let gs1 := setCell N st.board m.r m.c player
    let rec1 := step gs1 (-beta) (-st.alpha + m.heuristic_val) st.nodes
    let score := decayScore rec1.1
    let actual := m.heuristic_val - score
    let gs2 := setCell N rec1.2.1 m.r m.c 0
    let fa := match st.firstActual with
      | none => some actual
      | some a => some a
    let mx := if st.maxScore < actual then actual else st.maxScore
    let mrc1 := if st.maxScore < actual then (m.r, m.c) else st.mrc
    let mxD := decayScore mx
    let alpha1 := if st.alpha < mx then mx else st.alpha
    let st1 : LoopState := ⟨gs2, mx, alpha1, mrc1, rec1.2.2, fa⟩
    if ab ∧ beta ≤ mxD then st1 else loopCands N step player ab beta rest st1

/-- Candidate-set construction of `heuristicNegamax` (lines 126–149):
threat detection mark (`block_opponent`), up to two top opponent moves
re-scored from `player`'s perspective, then up to `breadth` of `player`'s
own ordered moves. -/
def buildCandidates (env : Env) (gs : List Int) (player : Int)
    (movesP movesO : List Move) (breadth : Nat) : Bool × List Move :=
  let blockOpp := decide (env.threateningScore ≤ (movesO.headD defaultMove).heuristic_val)
  let blocking := if blockOpp then
      (movesO.take 2).map (fun m => { m with heuristic_val := env.evalMove gs m.r m.c player })
    else []
  (blockOpp, blocking ++ movesP.take breadth)

/-- Root-only blocking override of `heuristicNegamax` (lines 200–211).
`bm` is `candidate_moves[0]` and `b` its stored-back `actual_score`.  The
test `(max_score - b_score) / (float)std::abs(b_score) < 0.2` is modelled
exactly: both `int` operands are converted to `float` (`intToFloat`,
round-to-nearest-even at 24 bits), the single-precision quotient
`q = RNE(nf / df)` is correctly rounded, and the comparison against the
`double` literal `0.2 = 3602879701896397 / 2^54` is exact (every `float`
is exactly a `double`).  The `float`s adjacent to 0.2 are
`13421772 / 2^26` (even significand, below 0.2) and `13421773 / 2^26`
(above), so `q < 0.2` holds for exactly the quotients that round to at
most `13421772 / 2^26`; since rounding is monotone and the midpoint
`26843545 / 2^27` itself rounds to the lower, even neighbour, that is
`nf / df ≤ 26843545 / 2^27`, i.e. (with `df > 0`, guaranteed because a
zero `b_score` was rewritten to 1) the integer test
`2^27 * nf ≤ 26843545 * df`. -/
def blockingOverride (isRoot blockOpp : Bool) (maxScore : Int) (bm : Move)
    (b : Int) (mrc : Int × Int) : Int × (Int × Int) :=
  if isRoot ∧ blockOpp ∧ maxScore < 0 then
    let b1 := if b = 0 then 1 else b
    if 134217728 * intToFloat (maxScore - b1) ≤ 26843545 * intToFloat |b1| then
      (b, (bm.r, bm.c))
    else (maxScore, mrc)
  else (maxScore, mrc)

/-- Node epilogue of `heuristicNegamax` (lines 200–218): apply the root-only
blocking override to the loop's outcome and assemble the returned score,
board, move slots and node counter. -/
def finishNode (bc : Bool × List Move) (isRoot : Bool) (st : LoopState) : SRes :=
  let ov := blockingOverride isRoot bc.1 st.maxScore (bc.2.headD defaultMove)
    (st.firstActual.getD 0) st.mrc
  ⟨ov.1, st.board, ov.2, st.nodes⟩

/-- Recursive `RenjuAINegamax::heuristicNegamax` (lines 92–219), with the
remaining depth as a `Nat` (the C `int` depth is positive at every call the
driver makes and decreases by exactly 1 per recursion).  All mutation is
explicit: the result carries the final board, move-output slots and node
counter. -/
def heuristicNegamax (env : Env) :
    Nat → List Int → Int → Nat → Bool → Int → Int → (Int × Int) → Nat → SRes
  | 0, gs, _, _, _, _, _, mrc, nodes => ⟨0, gs, mrc, nodes⟩
  | d + 1, gs, player, initialD, ab, alpha, beta, mrc, nodes =>
    let nodes1 := nodes + 1
    let opponent : Int := if player = 1 then 2 else 1
    let movesP := searchMovesOrdered env gs player
    let movesO := searchMovesOrdered env gs opponent
    if movesP = [] then ⟨0, gs, mrc, nodes1⟩
    else if movesP.length = 1 ∨ env.winningScore ≤ (movesP.headD defaultMove).heuristic_val then
      let m := movesP.headD defaultMove
      ⟨m.heuristic_val, gs, (m.r, m.c), nodes1⟩
    else
      let breadth := if (d + 1 + 1) >>> 1 = initialD >>> 1 then 12 else 6
      let bc := buildCandidates env gs player movesP movesO breadth
      let st := loopCands env.size
        (fun gs1 a b n =>
          let r := heuristicNegamax env d gs1 opponent initialD ab a b (0, 0) n
          (r.score, r.board, r.nodes))
        player ab beta bc.2 ⟨gs, -2147483648, alpha, mrc, nodes1, none⟩
      finishNode bc (d + 1 = initialD : Bool) st

/-- Cell visit of the exhaustive `negamax` loop (lines 274–301): skip
occupied and remote cells, otherwise place the stone, run the recursion
(`step`, returning value and board), restore the cell, and keep the running
maximum with its cell on strict improvement.  State is
`(max_score, board, move slots)`. -/
def negamaxStep (N : Nat) (remote : List Int → Int → Int → Bool)
    (step : List Int → Int × List Int) (player : Int)
    (acc : Int × List Int × (Int × Int)) (r c : Int) : Int × List Int × (Int × Int) :=
  if getCell N acc.2.1 r c ≠ 0 then acc
  else if remote acc.2.1 r c then acc
  else
    let gs1 := setCell N acc.2.1 r c player
    let rec1 := step gs1
    let s := -rec1.1
    let gs2 := setCell N rec1.2 r c 0
    if acc.1 < s then (s, gs2, (r, c)) else (acc.1, gs2, acc.2.2)

/-- Plain exhaustive `RenjuAINegamax::negamax` (lines 266–304): depth 0
returns `evalState`; otherwise every cell of the whole board is visited in
row-major order through `negamaxStep` with the sign-negated recursion at
`depth - 1`. -/
def negamax (env : Env) : Nat → List Int → Int → (Int × Int) → Int × List Int × (Int × Int)
  | 0, gs, player, mrc => (env.evalState gs player, gs, mrc)
  | d + 1, gs, player, mrc =>
    let N := env.size
    let opponent : Int := if player = 1 then 2 else 1
    (List.range N).foldl (fun acc (r : Nat) =>
      (List.range N).foldl (fun acc (c : Nat) =>
        negamaxStep N env.remoteCell
          (fun gs1 =>
            let r1 := negamax env d gs1 opponent (0, 0)
            (r1.1, r1.2.1))
          player acc (r : Int) (c : Int)) acc) (-2147483648, gs, mrc)

/-- Value of `INT_MIN / 2` under C truncating division, the `alpha` the
driver passes to every top-level search. -/
def fullAlpha : Int := -1073741824

/-- Value of `INT_MAX / 2` under C truncating division, the `beta` the
driver passes to every top-level search. -/
def fullBeta : Int := 1073741823

/-- Iterative-deepening loop of the driver (lines 67–87).  `clocks` is the
oracle for successive `std::clock()` readings and `cps` the platform
constant `CLOCKS_PER_SEC`; `idx` indexes the next reading.  The loop body
always runs the search at the current even depth `d`, then stops when
`d >= 16` or the time projection exceeds the budget, writing `d` to the
`actual_depth` slot.  The first argument is fuel for structural recursion:
starting from `d = 4` the unconditional `d >= 16` stop is reached after at
most 7 iterations, so fuel 7 makes the zero-fuel branch unreachable. -/
def iterLoopGo (env : Env) (clocks : Nat → Int) (cps : Int) (gs : List Int)
    (player : Int) (ab : Bool) (timeLimit : Int) (cStart : Int) :
    Nat → Nat → Nat → (Int × Int) → Int × Int × Int
  | 0, d, _, mrc => ((d : Int), mrc.1, mrc.2)
  | fuel + 1, d, idx, mrc =>
    let cIterStart := clocks idx
    let res := heuristicNegamax env d gs player d ab fullAlpha fullBeta mrc 0
    let cIteration := Int.tdiv ((clocks (idx + 1) - cIterStart) * 1000) cps
    let cElapsed := Int.tdiv ((clocks (idx + 2) - cStart) * 1000) cps
    if 16 ≤ d ∨ timeLimit < cElapsed + cIteration * 5 * 2 then
      ((d : Int), res.mrc.1, res.mrc.2)
    else iterLoopGo env clocks cps gs player ab timeLimit cStart fuel (d + 2) (idx + 3) res.mrc

/-- Public driver `RenjuAINegamax::heuristicNegamax` (void overload,
lines 45–90), the engine's `findBestMove` entry point.  Inputs `ad`, `mr`,
`mc` are the current contents of the `actual_depth` / `move_r` / `move_c`
output slots; the result is their contents on return.  The board is copied
into a private buffer before any search (value semantics make the copy a
plain binding), so the caller's board is never written. -/
def heuristicNegamaxDriver (env : Env) (clocks : Nat → Int) (cps : Int)
    (gs : List Int) (player : Int) (depth : Int) (timeLimit : Int) (ab : Bool)
    (ad mr mc : Int) : Int × Int × Int :=
  if depth = 0 ∨ depth < -1 then (ad, mr, mc)
  else
    let gsCopy := gs
    let cnt := countOccupied env.size gsCopy
    let depth1 := if cnt ≤ 2 then 6 else depth
    if 0 < depth1 then
      let res := heuristicNegamax env depth1.toNat gsCopy player depth1.toNat ab
        fullAlpha fullBeta (mr, mc) 0
      (depth1, res.mrc.1, res.mrc.2)
    else
      let cStart := clocks 0
      iterLoopGo env clocks cps gs player ab timeLimit cStart 7 4 1 (mr, mc)

/-- Claimed variant (C4) of the blocking override, following the claim's
words: "a blocking_score that is negative **or** zero is treated as 1".
Everything else — in particular the single-precision quotient test — is the
source's computation, so the two differ only in the guard.  The source only
rewrites an exact zero (`if (b_score == 0) b_score = 1;`). -/
def blockingOverrideSpecC4 (isRoot blockOpp : Bool) (maxScore : Int) (bm : Move)
    (b : Int) (mrc : Int × Int) : Int × (Int × Int) :=
  if isRoot ∧ blockOpp ∧ maxScore < 0 then
    let b1 := if b ≤ 0 then 1 else b
    if 134217728 * intToFloat (maxScore - b1) ≤ 26843545 * intToFloat |b1| then
      (b, (bm.r, bm.c))
    else (maxScore, mrc)
  else (maxScore, mrc)

/-- Root call of `heuristicNegamax` as claim C4 describes it: identical to
the source except that the blocking override treats every non-positive
`blocking_score` as 1.  Children are the unchanged recursive search (the
override only ever fires at `depth == initial_depth`, which no recursive
call can reach again). -/
def heuristicNegamaxSpecC4 (env : Env) :
    Nat → List Int → Int → Nat → Bool → Int → Int → (Int × Int) → Nat → SRes
  | 0, gs, _, _, _, _, _, mrc, nodes => ⟨0, gs, mrc, nodes⟩
  | d + 1, gs, player, initialD, ab, alpha, beta, mrc, nodes =>
    let nodes1 := nodes + 1
    let opponent : Int := if player = 1 then 2 else 1
    let movesP := searchMovesOrdered env gs player
    let movesO := searchMovesOrdered env gs opponent
    if movesP = [] then ⟨0, gs, mrc, nodes1⟩
    else if movesP.length = 1 ∨ env.winningScore ≤ (movesP.headD defaultMove).heuristic_val then
      let m := movesP.headD defaultMove
      ⟨m.heuristic_val, gs, (m.r, m.c), nodes1⟩
    else
      let breadth := if (d + 1 + 1) >>> 1 = initialD >>> 1 then 12 else 6
      let bc := buildCandidates env gs player movesP movesO breadth
      let st := loopCands env.size
        (fun gs1 a b n =>
          let r := heuristicNegamax env d gs1 opponent initialD ab a b (0, 0) n
          (r.score, r.board, r.nodes))
        player ab beta bc.2 ⟨gs, -2147483648, alpha, mrc, nodes1, none⟩
      let ov := blockingOverrideSpecC4 (d + 1 = initialD : Bool) bc.1 st.maxScore
        (bc.2.headD defaultMove) (st.firstActual.getD 0) st.mrc
      ⟨ov.1, st.board, ov.2, st.nodes⟩

/-! ### Basic list and board lemmas -/

/-- Writing the value 0 at a position already holding 0 (or out of range)
leaves the list unchanged. -/
theorem set_zero_of_getD_zero : ∀ (l : List Int) (i : Nat), l.getD i 0 = 0 → l.set i 0 = l := by
  intro l
  induction l with
  | nil => intro i _; rfl
  | cons a t ih =>
    intro i h
    cases i with
    | zero => simp only [List.getD_cons_zero] at h; simp [h]
    | succ j =>
      simp only [List.getD_cons_succ] at h
      simp [ih j h]

/-- Placing a stone on an empty cell and then clearing that cell restores
the board. -/
theorem setCell_setCell_zero (N : Nat) (gs : List Int) (r c v : Int)
    (h : getCell N gs r c = 0) : setCell N (setCell N gs r c v) r c 0 = gs := by
  unfold setCell
  rw [List.set_set]
  exact set_zero_of_getD_zero _ _ h

/-! ### Membership in the generated candidate list -/

theorem mem_scanStep_iff (env : Env) (gs : List Int) (p : Int) (acc : List Move)
    (r c : Int) (m : Move) :
    m ∈ scanStep env gs p acc r c ↔
      m ∈ acc ∨ (getCell env.size gs r c = 0 ∧ env.remoteCell gs r c = false ∧
        m = ⟨r, c, env.evalMove gs r c p, 0⟩) := by
  unfold scanStep
  split_ifs with h1 h2
  · simp [h1]
  · simp only [ne_eq, not_not] at h1
    simp [h1, h2]
  · simp only [ne_eq, not_not] at h1
    simp [List.mem_append, h1, Bool.not_eq_true, h2]

theorem mem_scanRow_iff (env : Env) (gs : List Int) (p : Int) (r : Int) :
    ∀ (cols : List Int) (acc : List Move) (m : Move),
    m ∈ cols.foldl (fun acc c => scanStep env gs p acc r c) acc ↔
      m ∈ acc ∨ ∃ c ∈ cols, getCell env.size gs r c = 0 ∧ env.remoteCell gs r c = false ∧
        m = ⟨r, c, env.evalMove gs r c p, 0⟩ := by
  intro cols
  induction cols with
  | nil => simp
  | cons c0 cs ih =>
    intro acc m
    rw [List.foldl_cons, ih, mem_scanStep_iff]
    simp only [List.mem_cons]
    constructor
    · rintro ((h | h) | ⟨c, hc, h⟩)
      · exact Or.inl h
      · exact Or.inr ⟨c0, Or.inl rfl, h⟩
      · exact Or.inr ⟨c, Or.inr hc, h⟩
    · rintro (h | ⟨c, (rfl | hc), h⟩)
      · exact Or.inl (Or.inl h)
      · exact Or.inl (Or.inr h)
      · exact Or.inr ⟨c, hc, h⟩

theorem mem_scanCells_iff (env : Env) (gs : List Int) (p : Int)
    (rows cols : List Int) (m : Move) :
    m ∈ scanCells env gs p rows cols ↔
      ∃ r ∈ rows, ∃ c ∈ cols, getCell env.size gs r c = 0 ∧
        env.remoteCell gs r c = false ∧ m = ⟨r, c, env.evalMove gs r c p, 0⟩ := by
  unfold scanCells
  suffices h : ∀ (rs : List Int) (acc : List Move),
      m ∈ rs.foldl (fun acc r => cols.foldl (fun acc c => scanStep env gs p acc r c) acc) acc ↔
        m ∈ acc ∨ ∃ r ∈ rs, ∃ c ∈ cols, getCell env.size gs r c = 0 ∧
          env.remoteCell gs r c = false ∧ m = ⟨r, c, env.evalMove gs r c p, 0⟩ by
    simpa using h rows []
  intro rs
  induction rs with
  | nil => simp
  | cons r0 rs ih =>
    intro acc
    rw [List.foldl_cons, ih, mem_scanRow_iff]
    simp only [List.mem_cons]
    constructor
    · rintro ((h | ⟨c, hc, h⟩) | ⟨r, hr, h⟩)
      · exact Or.inl h
      · exact Or.inr ⟨r0, Or.inl rfl, c, hc, h⟩
      · exact Or.inr ⟨r, Or.inr hr, h⟩
    · rintro (h | ⟨r, (rfl | hr), h⟩)
      · exact Or.inl (Or.inl h)
      · exact Or.inl (Or.inr h)
      · exact Or.inr ⟨r, hr, h⟩

theorem mem_intRange (lo hi x : Int) : x ∈ intRange lo hi ↔ lo ≤ x ∧ x ≤ hi := by
  unfold intRange
  constructor
  · intro h
    obtain ⟨i, hi, hx⟩ := List.mem_map.mp h
    rw [List.mem_range] at hi
    subst hx
    omega
  · intro h
    exact List.mem_map.mpr ⟨(x - lo).toNat, List.mem_range.mpr (by omega), by omega⟩

theorem mem_searchMovesOrdered (env : Env) (gs : List Int) (p : Int) (m : Move) :
    m ∈ searchMovesOrdered env gs p ↔ m ∈ genMoves env gs p :=
  (List.perm_insertionSort movesLE (genMoves env gs p)).mem_iff

/-- Every generated candidate sits on an empty, non-remote cell, carries the
`evalMove` score of its cell, and a zero `actual_score`. -/
theorem mem_searchMovesOrdered_props (env : Env) (gs : List Int) (p : Int) (m : Move)
    (h : m ∈ searchMovesOrdered env gs p) :
    getCell env.size gs m.r m.c = 0 ∧ env.remoteCell gs m.r m.c = false ∧
      m.heuristic_val = env.evalMove gs m.r m.c p ∧ m.actual_score = 0 := by
  rw [mem_searchMovesOrdered] at h
  unfold genMoves at h
  rw [mem_scanCells_iff] at h
  obtain ⟨r, _, c, _, h1, h2, rfl⟩ := h
  exact ⟨h1, h2, rfl, rfl⟩

/-- Every candidate in the per-node candidate set sits on a cell that is
empty in the board the node was entered with. -/
theorem mem_buildCandidates_empty (env : Env) (gs : List Int) (p q : Int)
    (br : Nat) (m : Move)
    (h : m ∈ (buildCandidates env gs p (searchMovesOrdered env gs p)
      (searchMovesOrdered env gs q) br).2) :
    getCell env.size gs m.r m.c = 0 := by
  unfold buildCandidates at h
  simp only [List.mem_append] at h
  rcases h with h | h
  · split_ifs at h with hb
    · simp only [List.mem_map] at h
      obtain ⟨m0, hm0, rfl⟩ := h
      have := mem_searchMovesOrdered_props env gs q m0 (List.take_subset 2 _ hm0)
      exact this.1
    · simp at h
  · have := mem_searchMovesOrdered_props env gs p m (List.take_subset br _ h)
    exact this.1

/-! ### Board restoration -/

/-- The candidate loop leaves the board exactly as it found it, provided the
recursive step restores its board and every candidate cell is empty. -/
theorem loopCands_board (N : Nat) (step : List Int → Int → Int → Nat → Int × List Int × Nat)
    (p : Int) (ab : Bool) (beta : Int) (gs0 : List Int)
    (hstep : ∀ gs a b n, (step gs a b n).2.1 = gs) :
    ∀ (cands : List Move) (st : LoopState), st.board = gs0 →
      (∀ m ∈ cands, getCell N gs0 m.r m.c = 0) →
      (loopCands N step p ab beta cands st).board = gs0 := by
  intro cands
  induction cands with
  | nil =>
    intro st h _
    simpa [loopCands] using h
  | cons m rest ih =>
    intro st hb hc
    have hboard : setCell N (step (setCell N st.board m.r m.c p)
        (-beta) (-st.alpha + m.heuristic_val) st.nodes).2.1 m.r m.c 0 = gs0 := by
      rw [hstep, hb, setCell_setCell_zero N gs0 m.r m.c p (hc m (List.mem_cons_self m rest))]
    simp only [loopCands]
    repeat' split
    all_goals first
      | exact hboard
      | exact ih _ hboard (fun m' hm' => hc m' (List.mem_cons_of_mem m hm'))

/-- Claim C1 — board restoration.  For every environment, board, player,
depth, pruning flag, alpha/beta window, move-slot contents and node count,
the recursive `heuristicNegamax` returns the board byte-for-byte equal to
its input: every stone placed during the candidate loop is removed before
the node returns.  The public entry point (`heuristicNegamaxDriver`) only
ever hands the search a private copy of the caller's board (`memcpy` into
`_gs`, a plain value binding here), so the caller's board is never
modified. -/
theorem c1_board_restoration (env : Env) (d : Nat) (gs : List Int) (player : Int)
    (initialD : Nat) (ab : Bool) (alpha beta : Int) (mrc : Int × Int) (n : Nat) :
    (heuristicNegamax env d gs player initialD ab alpha beta mrc n).board = gs := by
  induction d generalizing gs player alpha beta mrc n with
  | zero => rfl
  | succ d ih =>
    simp only [heuristicNegamax]
    split
    · rfl
    · split
      · rfl
      · exact loopCands_board env.size _ player ab beta gs
          (fun gs1 a b n1 => ih gs1 _ a b (0, 0) n1)
          _ _ rfl
          (fun m hm => mem_buildCandidates_empty env gs player _ _ m hm)

/-! ### Shortcut and empty-candidate claims -/

/-- Claim C5 — single-candidate / forced-win shortcut.  At depth ≥ 1, if the
moving player's ordered candidate list has exactly one entry, or its
top-ranked candidate's `heuristic_val` reaches the winning threshold, the
search immediately returns that candidate's cell as the move with score
equal to its `heuristic_val`; the board is untouched and the node counter
increases by exactly one — no recursive search call is performed. -/
theorem c5_forced_move_shortcut (env : Env) (d : Nat) (gs : List Int) (player : Int)
    (initialD : Nat) (ab : Bool) (alpha beta : Int) (mrc : Int × Int) (n : Nat)
    (hne : searchMovesOrdered env gs player ≠ [])
    (hcond : (searchMovesOrdered env gs player).length = 1 ∨
      env.winningScore ≤ ((searchMovesOrdered env gs player).headD defaultMove).heuristic_val) :
    heuristicNegamax env (d + 1) gs player initialD ab alpha beta mrc n =
      ⟨((searchMovesOrdered env gs player).headD defaultMove).heuristic_val, gs,
       (((searchMovesOrdered env gs player).headD defaultMove).r,
        ((searchMovesOrdered env gs player).headD defaultMove).c), n + 1⟩ := by
  simp only [heuristicNegamax]
  rw [if_neg hne, if_pos hcond]

/-- Claim C8 — empty candidate list.  At depth ≥ 1, when the moving player
has no candidate moves the search returns score 0, leaves the board alone,
and writes nothing to the move-output slots (they keep their prior
contents). -/
theorem c8_empty_candidates (env : Env) (d : Nat) (gs : List Int) (player : Int)
    (initialD : Nat) (ab : Bool) (alpha beta : Int) (mrc : Int × Int) (n : Nat)
    (hne : searchMovesOrdered env gs player = []) :
    heuristicNegamax env (d + 1) gs player initialD ab alpha beta mrc n =
      ⟨0, gs, mrc, n + 1⟩ := by
  simp only [heuristicNegamax]
  rw [if_pos hne]

/-- Board with a single stone (value 2 at cell (1,1)) on a 4×4 grid. -/
def gsOneStone : List Int := [0, 0, 0, 0, 0, 2, 0, 0, 0, 0, 0, 0, 0, 0, 0, 0]

/-- Environment whose remoteness predicate admits only cell (0,0), so the
candidate list is a singleton. -/
def envSingle : Env :=
  ⟨4, fun _ _ _ _ => 0, fun _ _ => 0, fun _ r c => decide (¬(r = 0 ∧ c = 0)),
   1000000, 1000000⟩

theorem c5_forced_move_shortcut_witness :
    searchMovesOrdered envSingle gsOneStone 1 ≠ [] ∧
    ((searchMovesOrdered envSingle gsOneStone 1).length = 1 ∨
      envSingle.winningScore ≤
        ((searchMovesOrdered envSingle gsOneStone 1).headD defaultMove).heuristic_val) ∧
    heuristicNegamax envSingle 1 gsOneStone 1 1 true fullAlpha fullBeta (99, 99) 0 =
      ⟨0, gsOneStone, (0, 0), 1⟩ :=
  ⟨by decide, by decide,
   (c5_forced_move_shortcut envSingle 0 gsOneStone 1 1 true fullAlpha fullBeta
      (99, 99) 0 (by decide) (by decide)).trans (by decide)⟩

/-- Environment in which every cell is remote, so no candidate exists. -/
def envNoCells : Env :=
  ⟨4, fun _ _ _ _ => 0, fun _ _ => 0, fun _ _ _ => true, 1000000, 1000000⟩

theorem c8_empty_candidates_witness :
    searchMovesOrdered envNoCells gsOneStone 1 = [] ∧
    heuristicNegamax envNoCells 1 gsOneStone 1 1 true fullAlpha fullBeta (7, 8) 0 =
      ⟨0, gsOneStone, (7, 8), 1⟩ :=
  ⟨by decide,
   c8_empty_candidates envNoCells 0 gsOneStone 1 1 true fullAlpha fullBeta (7, 8) 0 (by decide)⟩

/-! ### Pruning equivalence (claim C2) -/

/-- Number of occupied entries of a board value (used by the concrete
evaluators below to tell the ply apart). -/
def stonesOn (gs : List Int) : Nat :=
  gs.countP (fun x => !(x == 0))

/-- Concrete evaluator exhibiting pruning inequivalence: values depend on
the ply (stone count) and on which stones are present, all within `int`
range.  With it, an alpha-beta cutoff inside a depth-2 child truncates that
child's maximum, and the root score of the depth-3 search differs between
the pruned and the unpruned run. -/
def evalMoveC2 (gs : List Int) (r c pl : Int) : Int :=
  let idx := 4 * r + c
  let cnt := stonesOn gs
  if pl = 1 then
    if cnt = 1 then
      (if idx = 0 then 5 else if idx = 1 then 4 else if idx = 2 then -1000
       else if idx = 3 then -1001 else 0)
    else if cnt = 2 then 0
    else (if gs.getD 2 0 ≠ 0 then -1131000000 else -1131400000)
  else
    if cnt = 1 then 0
    else if cnt = 2 then
      (if gs.getD 0 0 ≠ 0 then (if idx = 2 then 5 else if idx = 3 then 0 else -5)
       else 2100000000)
    else 0

/-- Environment for the pruning counterexample: 4×4 board, only row 0 is
non-remote, thresholds high enough that no shortcut or blocking fires at
the root. -/
def envC2 : Env :=
  ⟨4, evalMoveC2, fun _ _ => 0, fun _ r _ => decide (r ≠ 0), 2000000000, 2000000001⟩

set_option maxRecDepth 4000 in
/-- Claim C2 — counterexample.  At fixed depth 3, with the driver's full
window exactly as `findBestMove` would issue it, enabling alpha-beta
pruning changes the returned score of the search on this concrete board
(the same single stone at (1,1)): the pruned run returns -1074450043 and
the unpruned run -1074829947.  A cutoff inside the first root child's
depth-2 subtree (windowed by `-alpha + heuristic_val` after the root's
alpha was raised) truncates that child's fail-soft maximum, and the decayed
truncated value reaches the root. -/
theorem c2_pruning_changes_score :
    (heuristicNegamax envC2 3 gsOneStone 1 3 true fullAlpha fullBeta (99, 99) 0).score =
      -1074450043 ∧
    (heuristicNegamax envC2 3 gsOneStone 1 3 false fullAlpha fullBeta (99, 99) 0).score =
      -1074829947 ∧
    (heuristicNegamax envC2 3 gsOneStone 1 3 true fullAlpha fullBeta (99, 99) 0).score ≠
      (heuristicNegamax envC2 3 gsOneStone 1 3 false fullAlpha fullBeta (99, 99) 0).score := by
  refine ⟨by decide, by decide, by decide⟩

theorem decayScore_of_lt (x : Int) (h : x < 10) : decayScore x = x := by
  unfold decayScore
  rw [if_neg (by omega)]

/-- Every candidate in the per-node candidate set carries the `evalMove`
score of its cell from the moving player's perspective (the threat-blocking
entries are re-scored as `player` before being added). -/
theorem mem_buildCandidates_hv (env : Env) (gs : List Int) (p q : Int)
    (br : Nat) (m : Move)
    (h : m ∈ (buildCandidates env gs p (searchMovesOrdered env gs p)
      (searchMovesOrdered env gs q) br).2) :
    m.heuristic_val = env.evalMove gs m.r m.c p := by
  unfold buildCandidates at h
  simp only [List.mem_append] at h
  rcases h with h | h
  · split_ifs at h with hb
    · simp only [List.mem_map] at h
      obtain ⟨m0, _, rfl⟩ := h
      rfl
    · simp at h
  · exact (mem_searchMovesOrdered_props env gs p m (List.take_subset br _ h)).2.2.1

/-- The candidate loop never takes a cutoff when its recursive step is the
depth-0 base case, every candidate's heuristic value stays below the decay
threshold 10, and `beta` exceeds 9 — so the pruning flag is irrelevant to
it. -/
theorem loopCands_depth_one_ab (N : Nat) (p : Int) (beta : Int)
    (stepT stepF : List Int → Int → Int → Nat → Int × List Int × Nat)
    (hT : ∀ gs a b n, stepT gs a b n = ((0 : Int), gs, n))
    (hF : ∀ gs a b n, stepF gs a b n = ((0 : Int), gs, n))
    (hbeta : 9 < beta) :
    ∀ (cands : List Move) (st : LoopState),
      (∀ m ∈ cands, m.heuristic_val ≤ 9) → st.maxScore ≤ 9 →
      loopCands N stepT p true beta cands st = loopCands N stepF p false beta cands st := by
  intro cands
  induction cands with
  | nil => intro st _ _; rfl
  | cons m rest ih =>
    intro st hc hmax
    have hm9 : m.heuristic_val ≤ 9 := hc m (List.mem_cons_self m rest)
    simp only [loopCands, hT, hF]
    rw [decayScore_of_lt 0 (by norm_num)]
    have hmx : (if st.maxScore < m.heuristic_val - 0 then m.heuristic_val - 0
        else st.maxScore) ≤ 9 := by
      split <;> omega
    have hlt : decayScore (if st.maxScore < m.heuristic_val - 0 then m.heuristic_val - 0
        else st.maxScore) < beta := by
      rw [decayScore_of_lt _ (by omega)]
      omega
    have h1 : ¬(True ∧ beta ≤ decayScore (if st.maxScore < m.heuristic_val - 0
        then m.heuristic_val - 0 else st.maxScore)) :=
      fun h => absurd h.2 (not_le.mpr hlt)
    have h2 : ¬(false = true ∧ beta ≤ decayScore (if st.maxScore < m.heuristic_val - 0
        then m.heuristic_val - 0 else st.maxScore)) :=
      fun h => by simp at h
    rw [if_neg h1, if_neg h2]
    exact ih _ (fun m' hm' => hc m' (List.mem_cons_of_mem m hm')) hmx

/-- Claim C2 — amended.  At depth 1, with any window whose `beta` exceeds 9
(the driver's full window qualifies) and an evaluator whose move scores
stay below the decay threshold 10, enabling or disabling alpha-beta pruning
yields the same search result — score, board, chosen move and node count.
(At larger depths the equivalence fails; see the counterexample.) -/
theorem c2_pruning_equiv_depth_one (env : Env)
    (hEval : ∀ gs r c pl, env.evalMove gs r c pl ≤ 9)
    (gs : List Int) (player : Int) (initialD : Nat) (alpha beta : Int)
    (hbeta : 9 < beta) (mrc : Int × Int) (n : Nat) :
    heuristicNegamax env 1 gs player initialD true alpha beta mrc n =
      heuristicNegamax env 1 gs player initialD false alpha beta mrc n := by
  show heuristicNegamax env (0 + 1) gs player initialD true alpha beta mrc n =
    heuristicNegamax env (0 + 1) gs player initialD false alpha beta mrc n
  simp only [heuristicNegamax]
  split
  · rfl
  · split
    · rfl
    · have hst := loopCands_depth_one_ab env.size player beta
        (fun gs1 a b n1 => ((0 : Int), gs1, n1)) (fun gs1 a b n1 => ((0 : Int), gs1, n1))
        (fun _ _ _ _ => rfl) (fun _ _ _ _ => rfl) hbeta
        ((buildCandidates env gs player (searchMovesOrdered env gs player)
          (searchMovesOrdered env gs (if player = 1 then 2 else 1))
          (if (0 + 1 + 1) >>> 1 = initialD >>> 1 then 12 else 6)).2)
        ⟨gs, -2147483648, alpha, mrc, n + 1, none⟩
        (fun m hm => mem_buildCandidates_hv env gs player _ _ m hm ▸
          hEval gs m.r m.c player)
        (by norm_num)
      exact congrArg
        (finishNode (buildCandidates env gs player (searchMovesOrdered env gs player)
          (searchMovesOrdered env gs (if player = 1 then 2 else 1))
          (if (0 + 1 + 1) >>> 1 = initialD >>> 1 then 12 else 6))
          (0 + 1 = initialD : Bool)) hst

theorem c2_pruning_equiv_depth_one_witness :
    (∀ gs r c pl, envSingle.evalMove gs r c pl ≤ 9) ∧ (9 : Int) < fullBeta ∧
    heuristicNegamax envSingle 1 gsOneStone 1 1 true fullAlpha fullBeta (99, 99) 0 =
      heuristicNegamax envSingle 1 gsOneStone 1 1 false fullAlpha fullBeta (99, 99) 0 :=
  ⟨fun _ _ _ _ => show (0 : Int) ≤ 9 by norm_num, by decide,
   c2_pruning_equiv_depth_one envSingle (fun _ _ _ _ => show (0 : Int) ≤ 9 by norm_num)
     gsOneStone 1 1 fullAlpha fullBeta (by decide) (99, 99) 0⟩

/-! ### Blocking override guard (claim C4) -/

/-- Concrete evaluator for the blocking-override guard: the opponent's top
move (cell (0,0), scored 150 ≥ threatening 100) marks the root as
blocking-relevant; re-scored for the mover it is worth -10, while the
mover's own best cell (0,1) is worth -5. -/
def evalMoveC4 (_gs : List Int) (r c pl : Int) : Int :=
  let idx := 4 * r + c
  if pl = 2 then (if idx = 0 then 150 else 0)
  else (if idx = 0 then -10 else if idx = 1 then -5 else 0)

/-- Environment for the blocking-override claim: 4×4 board, only cells
(0,0) and (0,1) are non-remote, threatening threshold 100. -/
def envC4 : Env :=
  ⟨4, evalMoveC4, fun _ _ => 0, fun _ r c => decide (¬(r = 0 ∧ c ≤ 1)), 1000000, 100⟩

/-- Claim C4 — counterexample.  The source guards only an exactly-zero
`blocking_score` (`if (b_score == 0) b_score = 1;`); a negative one is kept.
On this depth-1 root the blocking candidate's stored score is -10 and the
best score -5: the source computes the single-precision quotient
`(-5 - (-10)) / 10.0f = 0.5`, which is not below 0.2, and keeps the
searched move (0,1) with score -5; under the claim's reading (negative
treated as 1) the quotient becomes `(-5 - 1) / 1.0f = -6 < 0.2`, and the
result would be overridden to the blocking cell (0,0) with score -10.
The two computations disagree. -/
theorem c4_negative_blocking_score_kept :
    heuristicNegamax envC4 1 gsOneStone 1 1 true fullAlpha fullBeta (99, 99) 0 =
      ⟨-5, gsOneStone, (0, 1), 1⟩ ∧
    heuristicNegamaxSpecC4 envC4 1 gsOneStone 1 1 true fullAlpha fullBeta (99, 99) 0 =
      ⟨-10, gsOneStone, (0, 0), 1⟩ ∧
    heuristicNegamax envC4 1 gsOneStone 1 1 true fullAlpha fullBeta (99, 99) 0 ≠
      heuristicNegamaxSpecC4 envC4 1 gsOneStone 1 1 true fullAlpha fullBeta (99, 99) 0 :=
  ⟨by decide, by decide, by decide⟩

/-- Claim C4 — amended.  In the root blocking override, only an exactly-zero
`blocking_score` is treated as 1; negative scores pass through unchanged and
only their absolute value is used as the divisor.  The divisor is therefore
never zero; when the node is the root, marked blocking-relevant, the best
score is negative and the single-precision quotient compares below 0.2
(the `2^27 * nf ≤ 26843545 * df` test of `blockingOverride`), the result is
overridden with the first threat-blocking candidate's cell and its stored
`actual_score`.  The claimed variant (treating negative scores as 1 as
well) agrees with the source exactly when the blocking score is
nonnegative. -/
theorem c4_zero_guard_only (isRoot blockOpp : Bool) (maxScore : Int) (bm : Move)
    (b : Int) (mrc : Int × Int) :
    ((if b = 0 then 1 else b) ≠ 0) ∧
    (isRoot = true → blockOpp = true → maxScore < 0 →
      134217728 * intToFloat (maxScore - (if b = 0 then 1 else b)) ≤
        26843545 * intToFloat |if b = 0 then 1 else b| →
      blockingOverride isRoot blockOpp maxScore bm b mrc = (b, (bm.r, bm.c))) ∧
    (0 ≤ b →
      blockingOverride isRoot blockOpp maxScore bm b mrc =
        blockingOverrideSpecC4 isRoot blockOpp maxScore bm b mrc) := by
  refine ⟨by split <;> omega, ?_, ?_⟩
  · intro h1 h2 h3 h4
    unfold blockingOverride
    rw [if_pos ⟨h1, h2, h3⟩, if_pos h4]
  · intro hb
    unfold blockingOverride blockingOverrideSpecC4
    have : (if b = 0 then (1 : Int) else b) = (if b ≤ 0 then 1 else b) := by
      split_ifs <;> omega
    rw [this]

theorem c4_zero_guard_only_witness :
    (((if (-10 : Int) = 0 then 1 else -10) ≠ 0) ∧
      blockingOverride true true (-9) ⟨0, 0, 150, -10⟩ (-10) (99, 99) = (-10, (0, 0))) ∧
    blockingOverride true true (-9) ⟨0, 0, 150, 7⟩ 7 (99, 99) =
      blockingOverrideSpecC4 true true (-9) ⟨0, 0, 150, 7⟩ 7 (99, 99) :=
  ⟨⟨(c4_zero_guard_only true true (-9) ⟨0, 0, 150, -10⟩ (-10) (99, 99)).1,
    (c4_zero_guard_only true true (-9) ⟨0, 0, 150, -10⟩ (-10) (99, 99)).2.1
      rfl rfl (by decide) (by decide)⟩,
   (c4_zero_guard_only true true (-9) ⟨0, 0, 150, 7⟩ 7 (99, 99)).2.2 (by decide)⟩

/-! ### Driver claims (C9, C3) -/

/-- Empty 4×4 board. -/
def gsEmpty : List Int := List.replicate 16 0

/-- Board with three stones in row 0. -/
def gsThreeStones : List Int := [1, 2, 1, 0, 0, 0, 0, 0, 0, 0, 0, 0, 0, 0, 0, 0]

/-- Strictly increasing clock oracle: every iteration appears to cost one
second of CPU time, so the time projection exceeds any small budget at the
first check. -/
def clocksLinear : Nat → Int := fun i => (i : Int) * 1000000000

/-- Claim C9 — opening shortcut.  Whenever the board holds at most two
stones, every driver call that performs a search at all (auto mode
`depth = -1`, or any explicitly requested positive depth) searches at fixed
depth exactly 6, reports actual depth 6, and returns the move of the
depth-6 fixed search under the full window. -/
theorem c9_opening_forces_depth_six (env : Env) (clocks : Nat → Int) (cps : Int)
    (gs : List Int) (player : Int) (depth : Int) (timeLimit : Int) (ab : Bool)
    (ad mr mc : Int)
    (hcnt : countOccupied env.size gs ≤ 2)
    (hdepth : depth = -1 ∨ 0 < depth) :
    heuristicNegamaxDriver env clocks cps gs player depth timeLimit ab ad mr mc =
      (6, (heuristicNegamax env 6 gs player 6 ab fullAlpha fullBeta (mr, mc) 0).mrc.1,
          (heuristicNegamax env 6 gs player 6 ab fullAlpha fullBeta (mr, mc) 0).mrc.2) := by
  simp only [heuristicNegamaxDriver]
  rw [if_neg (by rcases hdepth with h | h <;> omega), if_pos hcnt,
    if_pos (by norm_num : (0 : Int) < 6)]
  rfl

theorem c9_opening_forces_depth_six_witness :
    countOccupied envNoCells.size gsEmpty ≤ 2 ∧ ((-1 : Int) = -1 ∨ 0 < (-1 : Int)) ∧
    heuristicNegamaxDriver envNoCells clocksLinear 1000000 gsEmpty 1 (-1) 0 true 99 99 99 =
      (6, 99, 99) :=
  ⟨by decide, Or.inl rfl,
   (c9_opening_forces_depth_six envNoCells clocksLinear 1000000 gsEmpty 1 (-1) 0 true
      99 99 99 (by decide) (Or.inl rfl)).trans (by decide)⟩

/-- Claim C3 — counterexample.  The driver's first statement is
`if (depth == 0 || depth < -1) return;`: with requested depth 0 (or -2) it
returns immediately, writing neither an actual depth nor a move — the
output slots keep their sentinel 99s — while the same call with depth -1
runs iterative deepening and writes actual depth 4.  So "every depth ≤ 0
selects auto mode" is false at depth 0. -/
theorem c3_depth_zero_is_noop :
    heuristicNegamaxDriver envNoCells clocksLinear 1000000 gsThreeStones 1 0 0 true
      99 99 99 = (99, 99, 99) ∧
    heuristicNegamaxDriver envNoCells clocksLinear 1000000 gsThreeStones 1 (-2) 0 true
      99 99 99 = (99, 99, 99) ∧
    heuristicNegamaxDriver envNoCells clocksLinear 1000000 gsThreeStones 1 (-1) 0 true
      99 99 99 = (4, 99, 99) :=
  ⟨by decide, by decide, by decide⟩

/-- Move-slot contents after one fixed-depth top-level search (the
composition the iterative-deepening loop threads through its iterations). -/
def fixedSearchMove (env : Env) (ab : Bool) (gs : List Int) (player : Int)
    (d : Nat) (mrc : Int × Int) : Int × Int :=
  (heuristicNegamax env d gs player d ab fullAlpha fullBeta mrc 0).mrc

/-- The iterative-deepening loop, entered at depth `d` with enough fuel,
stops at some depth `d + 2*k`, reports exactly that depth, and its move
slots hold the fold of the fixed-depth searches at `d, d+2, ..., d+2*k`
(each on the pristine board, threading the move slots). -/
theorem iterLoopGo_spec (env : Env) (clocks : Nat → Int) (cps : Int) (gs : List Int)
    (player : Int) (ab : Bool) (timeLimit : Int) (cStart : Int) :
    ∀ (fuel d idx : Nat) (mrc : Int × Int), 1 ≤ fuel → 18 ≤ d + 2 * fuel →
      ∃ k, k < fuel ∧
        iterLoopGo env clocks cps gs player ab timeLimit cStart fuel d idx mrc =
          (((d + 2 * k : Nat) : Int),
           (((List.range (k + 1)).map (fun i => d + 2 * i)).foldl
             (fun m dd => fixedSearchMove env ab gs player dd m) mrc).1,
           (((List.range (k + 1)).map (fun i => d + 2 * i)).foldl
             (fun m dd => fixedSearchMove env ab gs player dd m) mrc).2) := by
  intro fuel
  induction fuel with
  | zero => intro d idx mrc h1 _; omega
  | succ fuel ih =>
    intro d idx mrc _ h18
    simp only [iterLoopGo]
    split
    · refine ⟨0, by omega, ?_⟩
      simp [fixedSearchMove, show List.range 1 = [0] from rfl]
    · rename_i hcond
      have hd : d ≤ 15 := by
        by_contra hd
        exact hcond (Or.inl (by omega))
      obtain ⟨k, hk, heq⟩ := ih (d + 2) (idx + 3)
        (heuristicNegamax env d gs player d ab fullAlpha fullBeta mrc 0).mrc
        (by omega) (by omega)
      refine ⟨k + 1, by omega, ?_⟩
      rw [heq]
      have hlist : ((List.range (k + 1 + 1)).map (fun i => d + 2 * i)) =
          d :: ((List.range (k + 1)).map (fun i => (d + 2) + 2 * i)) := by
        rw [List.range_succ_eq_map, List.map_cons, List.map_map]
        refine congrArg₂ _ (by omega) ?_
        exact List.map_congr_left (fun i _ => by simp [Function.comp]; omega)
      rw [hlist, List.foldl_cons]
      refine congrArg₂ _ (by push_cast; ring_nf) ?_
      rfl

/-- Claim C3 — amended.  Only the depth argument -1 selects auto /
iterative-deepening mode: depth 0 and every depth below -1 make the entry
point return immediately without writing any output.  At depth -1 (for a
board past the ≤ 2-stone opening override) the driver runs fixed-depth
searches at increasing depths 4, 6, ..., 4+2k, threads the move slots
through them, and writes the last depth searched to the actual-depth
slot. -/
theorem c3_auto_mode_only_at_minus_one :
    (∀ (env : Env) (clocks : Nat → Int) (cps : Int) (gs : List Int)
       (player depth timeLimit : Int) (ab : Bool) (ad mr mc : Int),
      depth = 0 ∨ depth < -1 →
      heuristicNegamaxDriver env clocks cps gs player depth timeLimit ab ad mr mc =
        (ad, mr, mc)) ∧
    (∀ (env : Env) (clocks : Nat → Int) (cps : Int) (gs : List Int)
       (player timeLimit : Int) (ab : Bool) (ad mr mc : Int),
      2 < countOccupied env.size gs →
      ∃ k ≤ 6,
        heuristicNegamaxDriver env clocks cps gs player (-1) timeLimit ab ad mr mc =
          (((4 + 2 * k : Nat) : Int),
           (((List.range (k + 1)).map (fun i => 4 + 2 * i)).foldl
             (fun m dd => fixedSearchMove env ab gs player dd m) (mr, mc)).1,
           (((List.range (k + 1)).map (fun i => 4 + 2 * i)).foldl
             (fun m dd => fixedSearchMove env ab gs player dd m) (mr, mc)).2)) := by
  constructor
  · intro env clocks cps gs player depth timeLimit ab ad mr mc h
    simp only [heuristicNegamaxDriver]
    rw [if_pos h]
  · intro env clocks cps gs player timeLimit ab ad mr mc hcnt
    simp only [heuristicNegamaxDriver]
    rw [if_neg (show ¬((-1 : Int) = 0 ∨ (-1 : Int) < -1) by norm_num),
      if_neg (show ¬(countOccupied env.size gs ≤ 2) by omega),
      if_neg (show ¬((0 : Int) < -1) by norm_num)]
    obtain ⟨k, hk, heq⟩ := iterLoopGo_spec env clocks cps gs player ab timeLimit
      (clocks 0) 7 4 1 (mr, mc) (by norm_num) (by norm_num)
    exact ⟨k, by omega, heq⟩

theorem c3_auto_mode_only_at_minus_one_witness :
    heuristicNegamaxDriver envNoCells clocksLinear 1000000 gsThreeStones 1 0 0 true
      99 99 99 = (99, 99, 99) ∧
    2 < countOccupied envNoCells.size gsThreeStones ∧
    (∃ k ≤ 6,
      heuristicNegamaxDriver envNoCells clocksLinear 1000000 gsThreeStones 1 (-1) 0 true
        99 99 99 =
        (((4 + 2 * k : Nat) : Int),
         (((List.range (k + 1)).map (fun i => 4 + 2 * i)).foldl
           (fun m dd => fixedSearchMove envNoCells true gsThreeStones 1 dd m) (99, 99)).1,
         (((List.range (k + 1)).map (fun i => 4 + 2 * i)).foldl
           (fun m dd => fixedSearchMove envNoCells true gsThreeStones 1 dd m) (99, 99)).2)) :=
  ⟨c3_auto_mode_only_at_minus_one.1 envNoCells clocksLinear 1000000 gsThreeStones 1 0 0
     true 99 99 99 (Or.inl rfl),
   by decide,
   c3_auto_mode_only_at_minus_one.2 envNoCells clocksLinear 1000000 gsThreeStones 1 0
     true 99 99 99 (by decide)⟩

/-! ### Player-independent cell selection (claim C10) -/

theorem scanStep_cells (env : Env) (gs : List Int) (p q : Int)
    (acc1 acc2 : List Move) (r c : Int)
    (h : acc1.map (fun m => (m.r, m.c)) = acc2.map (fun m => (m.r, m.c))) :
    (scanStep env gs p acc1 r c).map (fun m => (m.r, m.c)) =
      (scanStep env gs q acc2 r c).map (fun m => (m.r, m.c)) := by
  unfold scanStep
  split_ifs
  · exact h
  · exact h
  · simp only [List.map_append, List.map_cons, List.map_nil, h]

theorem scanCells_cells (env : Env) (gs : List Int) (p q : Int)
    (rows cols : List Int) :
    (scanCells env gs p rows cols).map (fun m => (m.r, m.c)) =
      (scanCells env gs q rows cols).map (fun m => (m.r, m.c)) := by
  unfold scanCells
  suffices hrow : ∀ (rs : List Int) (acc1 acc2 : List Move),
      acc1.map (fun m => (m.r, m.c)) = acc2.map (fun m => (m.r, m.c)) →
      (rs.foldl (fun acc r => cols.foldl (fun acc c => scanStep env gs p acc r c) acc)
        acc1).map (fun m => (m.r, m.c)) =
      (rs.foldl (fun acc r => cols.foldl (fun acc c => scanStep env gs q acc r c) acc)
        acc2).map (fun m => (m.r, m.c)) from hrow rows [] [] rfl
  intro rs
  induction rs with
  | nil => intro acc1 acc2 h; simpa using h
  | cons r0 rs ihr =>
    intro acc1 acc2 h
    rw [List.foldl_cons, List.foldl_cons]
    refine ihr _ _ ?_
    clear ihr
    induction cols generalizing acc1 acc2 with
    | nil => simpa using h
    | cons c0 cs ihc =>
      rw [List.foldl_cons, List.foldl_cons]
      exact ihc _ _ (scanStep_cells env gs p q acc1 acc2 r0 c0 h)

/-- Claim C10 — the generator picks the same cells for both players.  The
cell list of `searchMovesOrdered` is, as a multiset, independent of the
player argument (the player only affects scores and hence the sort order);
consequently if the moving player's list is non-empty so is the opponent's,
and the unchecked `(*moves_opponent)[0]` read of the threat-detection step
is in bounds whenever it is reached (it sits behind the moving player's
non-emptiness check). -/
theorem c10_cell_selection_player_independent (env : Env) (gs : List Int) (p q : Int) :
    (↑((searchMovesOrdered env gs p).map (fun m => (m.r, m.c))) : Multiset (Int × Int)) =
      ↑((searchMovesOrdered env gs q).map (fun m => (m.r, m.c))) ∧
    (searchMovesOrdered env gs p ≠ [] → searchMovesOrdered env gs q ≠ []) := by
  have hgen : (genMoves env gs p).map (fun m => (m.r, m.c)) =
      (genMoves env gs q).map (fun m => (m.r, m.c)) := by
    unfold genMoves
    exact scanCells_cells env gs p q _ _
  have hp := (List.perm_insertionSort movesLE (genMoves env gs p)).map
    (fun m => (m.r, m.c))
  have hq := (List.perm_insertionSort movesLE (genMoves env gs q)).map
    (fun m => (m.r, m.c))
  constructor
  · exact Multiset.coe_eq_coe.mpr (hp.trans (hgen ▸ hq.symm))
  · intro hne h
    apply hne
    have h1 : (searchMovesOrdered env gs q).length = 0 := by rw [h]; rfl
    have h2 : (searchMovesOrdered env gs p).length =
        (searchMovesOrdered env gs q).length := by
      have e1 := hp.length_eq
      have e2 := hq.length_eq
      have e3 := congrArg List.length hgen
      simp only [List.length_map] at e1 e2 e3
      unfold searchMovesOrdered
      omega
    exact List.length_eq_zero.mp (h2.trans h1)

theorem c10_cell_selection_player_independent_witness :
    (↑((searchMovesOrdered envC4 gsOneStone 1).map (fun m => (m.r, m.c))) : Multiset (Int × Int)) =
      ↑((searchMovesOrdered envC4 gsOneStone 2).map (fun m => (m.r, m.c))) ∧
    searchMovesOrdered envC4 gsOneStone 2 ≠ [] :=
  ⟨(c10_cell_selection_player_independent envC4 gsOneStone 1 2).1,
   (c10_cell_selection_player_independent envC4 gsOneStone 1 2).2 (by decide)⟩

/-! ### Exhaustive negamax (claim C7) -/

/-- All board cells in row-major order. -/
def cellPairs (N : Nat) : List (Nat × Nat) :=
  (List.range N).flatMap (fun r => (List.range N).map (fun c => (r, c)))

/-- Empty non-remote cells of the whole board, the cells the exhaustive
search tries. -/
def candCells (env : Env) (gs : List Int) : List (Nat × Nat) :=
  (cellPairs env.size).filter
    (fun p => getCell env.size gs (p.1 : Int) (p.2 : Int) == 0 &&
      !env.remoteCell gs (p.1 : Int) (p.2 : Int))

/-- Score the exhaustive search assigns to trying a cell: the negated
depth-`d` value of the position with the player's stone placed there. -/
def negamaxCellScore (env : Env) (d : Nat) (gs : List Int) (player : Int)
    (p : Nat × Nat) : Int :=
  -(negamax env d (setCell env.size gs (p.1 : Int) (p.2 : Int) player)
    (if player = 1 then 2 else 1) (0, 0)).1

/-- Pure running-maximum-with-argmax fold (strict improvement keeps the
earliest maximizer, like the source's `if (s > max_score)` update). -/
def maxWithCell (a : Int × (Int × Int)) (l : List ((Nat × Nat) × Int)) : Int × (Int × Int) :=
  l.foldl (fun a q => if a.1 < q.2 then (q.2, ((q.1.1 : Int), (q.1.2 : Int))) else a) a

theorem foldl_nested {β : Type} (N : Nat) (g : β → Nat → Nat → β) (b : β) :
    (List.range N).foldl (fun acc r => (List.range N).foldl (fun acc c => g acc r c) acc) b =
      (cellPairs N).foldl (fun acc p => g acc p.1 p.2) b := by
  unfold cellPairs
  suffices h : ∀ (rows : List Nat) (b : β),
      rows.foldl (fun acc r => (List.range N).foldl (fun acc c => g acc r c) acc) b =
        (rows.flatMap (fun r => (List.range N).map (fun c => (r, c)))).foldl
          (fun acc p => g acc p.1 p.2) b from h (List.range N) b
  intro rows
  induction rows with
  | nil => intro b; rfl
  | cons r0 rs ih =>
    intro b
    rw [List.foldl_cons, List.flatMap_cons, List.foldl_append, ih, List.foldl_map]

theorem maxWithCell_fst_ge (l : List ((Nat × Nat) × Int)) :
    ∀ (a : Int × (Int × Int)), a.1 ≤ (maxWithCell a l).1 := by
  induction l with
  | nil => intro a; exact le_refl _
  | cons q l ih =>
    intro a
    unfold maxWithCell
    rw [List.foldl_cons]
    refine le_trans ?_ (ih _)
    split <;> omega

theorem maxWithCell_ub (l : List ((Nat × Nat) × Int)) :
    ∀ (a : Int × (Int × Int)) (q : (Nat × Nat) × Int), q ∈ l →
      q.2 ≤ (maxWithCell a l).1 := by
  induction l with
  | nil => intro a q h; simp at h
  | cons q0 l ih =>
    intro a q hq
    rcases List.mem_cons.mp hq with rfl | hq
    · unfold maxWithCell
      rw [List.foldl_cons]
      refine le_trans ?_ (maxWithCell_fst_ge l _)
      split <;> omega
    · unfold maxWithCell
      rw [List.foldl_cons]
      exact ih _ q hq

theorem maxWithCell_cases (l : List ((Nat × Nat) × Int)) :
    ∀ (a : Int × (Int × Int)), maxWithCell a l = a ∨
      ∃ q ∈ l, maxWithCell a l = (q.2, ((q.1.1 : Int), (q.1.2 : Int))) := by
  induction l with
  | nil => intro a; exact Or.inl rfl
  | cons q0 l ih =>
    intro a
    unfold maxWithCell
    rw [List.foldl_cons]
    by_cases h : a.1 < q0.2
    · rw [if_pos h]
      rcases ih (q0.2, ((q0.1.1 : Int), (q0.1.2 : Int))) with h1 | ⟨q, hq, h1⟩
      · exact Or.inr ⟨q0, List.mem_cons_self _ _, h1⟩
      · exact Or.inr ⟨q, List.mem_cons_of_mem _ hq, h1⟩
    · rw [if_neg h]
      rcases ih a with h1 | ⟨q, hq, h1⟩
      · exact Or.inl h1
      · exact Or.inr ⟨q, List.mem_cons_of_mem _ hq, h1⟩

/-- Characterization of the exhaustive search's cell loop over an arbitrary
cell list: provided the recursion restores its board, the loop runs the
pure maximum-with-argmax fold over the scored empty non-remote cells and
returns the board unchanged. -/
theorem negamaxStep_fold_char (N : Nat) (remote : List Int → Int → Int → Bool)
    (step : List Int → Int × List Int) (player : Int)
    (hstep : ∀ gs1, (step gs1).2 = gs1) (gs : List Int) :
    ∀ (l : List (Nat × Nat)) (a0 : Int) (mrc0 : Int × Int),
      l.foldl (fun acc p => negamaxStep N remote step player acc (p.1 : Int) (p.2 : Int))
        (a0, gs, mrc0) =
      ((maxWithCell (a0, mrc0)
          ((l.filter (fun p => getCell N gs (p.1 : Int) (p.2 : Int) == 0 &&
            !remote gs (p.1 : Int) (p.2 : Int))).map
            (fun p => (p, -(step (setCell N gs (p.1 : Int) (p.2 : Int) player)).1)))).1,
       gs,
       (maxWithCell (a0, mrc0)
          ((l.filter (fun p => getCell N gs (p.1 : Int) (p.2 : Int) == 0 &&
            !remote gs (p.1 : Int) (p.2 : Int))).map
            (fun p => (p, -(step (setCell N gs (p.1 : Int) (p.2 : Int) player)).1)))).2) := by
  intro l
  induction l with
  | nil => intro a0 mrc0; rfl
  | cons p l ih =>
    intro a0 mrc0
    rw [List.foldl_cons, List.filter_cons]
    by_cases h1 : getCell N gs (p.1 : Int) (p.2 : Int) ≠ 0
    · rw [if_neg (by simp [h1])]
      have hskip : negamaxStep N remote step player (a0, gs, mrc0) (p.1 : Int) (p.2 : Int) =
          (a0, gs, mrc0) := by
        unfold negamaxStep
        rw [if_pos h1]
      rw [hskip, ih]
    · simp only [ne_eq, not_not] at h1
      by_cases h2 : remote gs (p.1 : Int) (p.2 : Int)
      · rw [if_neg (by simp [h1, h2])]
        have hskip : negamaxStep N remote step player (a0, gs, mrc0) (p.1 : Int) (p.2 : Int) =
            (a0, gs, mrc0) := by
          unfold negamaxStep
          rw [if_neg (by simp [h1]), if_pos h2]
        rw [hskip, ih]
      · rw [if_pos (by simp [h1, h2])]
        have hgs2 : setCell N (step (setCell N gs (p.1 : Int) (p.2 : Int) player)).2
            (p.1 : Int) (p.2 : Int) 0 = gs := by
          rw [hstep, setCell_setCell_zero N gs _ _ _ h1]
        have hvisit : negamaxStep N remote step player (a0, gs, mrc0) (p.1 : Int) (p.2 : Int) =
            (if a0 < -(step (setCell N gs (p.1 : Int) (p.2 : Int) player)).1
              then (-(step (setCell N gs (p.1 : Int) (p.2 : Int) player)).1, gs,
                ((p.1 : Int), (p.2 : Int)))
              else (a0, gs, mrc0)) := by
          unfold negamaxStep
          rw [if_neg (by simp [h1]), if_neg (by simp [h2])]
          dsimp only
          rw [hgs2]
        rw [hvisit]
        unfold maxWithCell
        rw [List.map_cons, List.foldl_cons]
        by_cases hlt : a0 < -(step (setCell N gs (p.1 : Int) (p.2 : Int) player)).1
        · rw [if_pos hlt, if_pos hlt]
          exact ih _ _
        · rw [if_neg hlt, if_neg hlt]
          exact ih _ _

/-- The exhaustive search restores its board at every depth. -/
theorem negamax_board (env : Env) :
    ∀ (d : Nat) (gs : List Int) (player : Int) (mrc : Int × Int),
      (negamax env d gs player mrc).2.1 = gs := by
  intro d
  induction d with
  | zero => intros; rfl
  | succ d ih =>
    intro gs player mrc
    simp only [negamax]
    rw [foldl_nested env.size
      (fun acc r c => negamaxStep env.size env.remoteCell
        (fun gs1 => ((negamax env d gs1 (if player = 1 then 2 else 1) (0, 0)).1,
          (negamax env d gs1 (if player = 1 then 2 else 1) (0, 0)).2.1)) player acc
        (r : Int) (c : Int))]
    rw [negamaxStep_fold_char env.size env.remoteCell
      (fun gs1 => ((negamax env d gs1 (if player = 1 then 2 else 1) (0, 0)).1,
        (negamax env d gs1 (if player = 1 then 2 else 1) (0, 0)).2.1))
      player (fun gs1 => ih gs1 (if player = 1 then 2 else 1) (0, 0)) gs
      (cellPairs env.size) (-2147483648) mrc]

/-- Closed form of one exhaustive-search level: the pure maximization over
all scored empty non-remote cells, with the board returned unchanged. -/
theorem negamax_succ_eq (env : Env) (d : Nat) (gs : List Int) (player : Int)
    (mrc : Int × Int) :
    negamax env (d + 1) gs player mrc =
      ((maxWithCell (-2147483648, mrc) ((candCells env gs).map
          (fun p => (p, negamaxCellScore env d gs player p)))).1,
       gs,
       (maxWithCell (-2147483648, mrc) ((candCells env gs).map
          (fun p => (p, negamaxCellScore env d gs player p)))).2) := by
  simp only [negamax]
  rw [foldl_nested env.size
    (fun acc r c => negamaxStep env.size env.remoteCell
      (fun gs1 => ((negamax env d gs1 (if player = 1 then 2 else 1) (0, 0)).1,
        (negamax env d gs1 (if player = 1 then 2 else 1) (0, 0)).2.1)) player acc
      (r : Int) (c : Int))]
  rw [negamaxStep_fold_char env.size env.remoteCell
    (fun gs1 => ((negamax env d gs1 (if player = 1 then 2 else 1) (0, 0)).1,
      (negamax env d gs1 (if player = 1 then 2 else 1) (0, 0)).2.1))
    player (fun gs1 => negamax_board env d gs1 (if player = 1 then 2 else 1) (0, 0)) gs
    (cellPairs env.size) (-2147483648) mrc]
  rfl

/-- Claim C7 — exhaustive negamax.  At depth 0 the baseline returns
`evalState(board, player)` untouched.  At depth `d+1` it restores the
board; its score bounds the negated depth-`d` value of every empty
non-remote cell of the whole board (no pruning, no ordering, no breadth
limit — every such cell is scanned in row-major order); with no candidate
cell it returns `INT_MIN` and leaves the move slots alone; and when
candidates exist (and no score collides with the `INT_MIN` sentinel, which
in C would be the overflowing `-INT_MIN`) the returned score is attained
at some candidate cell, which is written to the move outputs. -/
theorem c7_exhaustive_negamax (env : Env) :
    (∀ (gs : List Int) (player : Int) (mrc : Int × Int),
      negamax env 0 gs player mrc = (env.evalState gs player, gs, mrc)) ∧
    (∀ (d : Nat) (gs : List Int) (player : Int) (mrc : Int × Int),
      (negamax env (d + 1) gs player mrc).2.1 = gs ∧
      (∀ p ∈ candCells env gs,
        negamaxCellScore env d gs player p ≤ (negamax env (d + 1) gs player mrc).1) ∧
      (candCells env gs = [] →
        negamax env (d + 1) gs player mrc = (-2147483648, gs, mrc)) ∧
      (candCells env gs ≠ [] →
        (∀ p ∈ candCells env gs, -2147483648 < negamaxCellScore env d gs player p) →
        ∃ p ∈ candCells env gs,
          (negamax env (d + 1) gs player mrc).1 = negamaxCellScore env d gs player p ∧
          (negamax env (d + 1) gs player mrc).2.2 = ((p.1 : Int), (p.2 : Int)))) := by
  refine ⟨fun gs player mrc => rfl, fun d gs player mrc => ?_⟩
  refine ⟨negamax_board env (d + 1) gs player mrc, ?_, ?_, ?_⟩
  · intro p hp
    rw [negamax_succ_eq]
    exact maxWithCell_ub _ _ (p, negamaxCellScore env d gs player p)
      (List.mem_map_of_mem _ hp)
  · intro hnil
    rw [negamax_succ_eq, hnil]
    rfl
  · intro hne hpos
    rw [negamax_succ_eq]
    rcases maxWithCell_cases ((candCells env gs).map
        (fun p => (p, negamaxCellScore env d gs player p))) (-2147483648, mrc)
      with hcase | ⟨q, hq, hcase⟩
    · exfalso
      obtain ⟨p0, hp0⟩ := List.exists_mem_of_ne_nil _ hne
      have h1 := maxWithCell_ub ((candCells env gs).map
          (fun p => (p, negamaxCellScore env d gs player p))) (-2147483648, mrc)
        (p0, negamaxCellScore env d gs player p0) (List.mem_map_of_mem _ hp0)
      rw [hcase] at h1
      have h2 := hpos p0 hp0
      simp only at h1
      omega
    · obtain ⟨p, hp, hq2⟩ := List.mem_map.mp hq
      refine ⟨p, hp, ?_, ?_⟩
      · rw [hcase, ← hq2]
      · rw [hcase, ← hq2]

theorem c7_exhaustive_negamax_witness :
    negamax envSingle 0 gsOneStone 1 (99, 99) =
      (envSingle.evalState gsOneStone 1, gsOneStone, (99, 99)) ∧
    (negamax envSingle 1 gsOneStone 1 (99, 99)).2.1 = gsOneStone ∧
    candCells envSingle gsOneStone ≠ [] ∧
    (∀ p ∈ candCells envSingle gsOneStone,
      -2147483648 < negamaxCellScore envSingle 0 gsOneStone 1 p) ∧
    (∃ p ∈ candCells envSingle gsOneStone,
      (negamax envSingle 1 gsOneStone 1 (99, 99)).1 =
        negamaxCellScore envSingle 0 gsOneStone 1 p ∧
      (negamax envSingle 1 gsOneStone 1 (99, 99)).2.2 = ((p.1 : Int), (p.2 : Int))) :=
  ⟨(c7_exhaustive_negamax envSingle).1 gsOneStone 1 (99, 99),
   ((c7_exhaustive_negamax envSingle).2 0 gsOneStone 1 (99, 99)).1,
   by decide, by decide,
   ((c7_exhaustive_negamax envSingle).2 0 gsOneStone 1 (99, 99)).2.2.2
     (by decide) (by decide)⟩

/-! ### Candidate generator characterization (claim C6) -/

theorem mem_cellPairs (N : Nat) (p : Nat × Nat) :
    p ∈ cellPairs N ↔ p.1 < N ∧ p.2 < N := by
  unfold cellPairs
  simp only [List.mem_flatMap, List.mem_map, List.mem_range]
  constructor
  · rintro ⟨r, hr, c, hc, rfl⟩
    exact ⟨hr, hc⟩
  · intro ⟨h1, h2⟩
    exact ⟨p.1, h1, p.2, h2, rfl⟩

theorem foldl_condMin_le_init {α : Type} (P : α → Prop) [DecidablePred P] (k : α → Int) :
    ∀ (l : List α) (v0 : Int),
      l.foldl (fun v a => if P a then (if k a < v then k a else v) else v) v0 ≤ v0 := by
  intro l
  induction l with
  | nil => intro v0; exact le_refl _
  | cons a l ih =>
    intro v0
    rw [List.foldl_cons]
    refine le_trans (ih _) ?_
    split_ifs <;> omega

theorem foldl_condMin_le {α : Type} (P : α → Prop) [DecidablePred P] (k : α → Int) :
    ∀ (l : List α) (v0 : Int) (a : α), a ∈ l → P a →
      l.foldl (fun v a => if P a then (if k a < v then k a else v) else v) v0 ≤ k a := by
  intro l
  induction l with
  | nil => intro v0 a h; simp at h
  | cons a0 l ih =>
    intro v0 a ha hP
    rw [List.foldl_cons]
    rcases List.mem_cons.mp ha with rfl | ha
    · refine le_trans (foldl_condMin_le_init P k l _) ?_
      rw [if_pos hP]
      split <;> omega
    · exact ih _ a ha hP

theorem foldl_condMin_cases {α : Type} (P : α → Prop) [DecidablePred P] (k : α → Int) :
    ∀ (l : List α) (v0 : Int),
      l.foldl (fun v a => if P a then (if k a < v then k a else v) else v) v0 = v0 ∨
      ∃ a ∈ l, P a ∧
        l.foldl (fun v a => if P a then (if k a < v then k a else v) else v) v0 = k a := by
  intro l
  induction l with
  | nil => intro v0; exact Or.inl rfl
  | cons a0 l ih =>
    intro v0
    rw [List.foldl_cons]
    by_cases hP : P a0
    · rw [if_pos hP]
      by_cases hlt : k a0 < v0
      · rw [if_pos hlt]
        rcases ih (k a0) with h | ⟨a, ha, hPa, h⟩
        · exact Or.inr ⟨a0, List.mem_cons_self _ _, hP, h⟩
        · exact Or.inr ⟨a, List.mem_cons_of_mem _ ha, hPa, h⟩
      · rw [if_neg hlt]
        rcases ih v0 with h | ⟨a, ha, hPa, h⟩
        · exact Or.inl h
        · exact Or.inr ⟨a, List.mem_cons_of_mem _ ha, hPa, h⟩
    · rw [if_neg hP]
      rcases ih v0 with h | ⟨a, ha, hPa, h⟩
      · exact Or.inl h
      · exact Or.inr ⟨a, List.mem_cons_of_mem _ ha, hPa, h⟩

theorem foldl_condMax_ge_init {α : Type} (P : α → Prop) [DecidablePred P] (k : α → Int) :
    ∀ (l : List α) (v0 : Int),
      v0 ≤ l.foldl (fun v a => if P a then (if v < k a then k a else v) else v) v0 := by
  intro l
  induction l with
  | nil => intro v0; exact le_refl _
  | cons a l ih =>
    intro v0
    rw [List.foldl_cons]
    refine le_trans ?_ (ih _)
    split_ifs <;> omega

theorem foldl_condMax_ge {α : Type} (P : α → Prop) [DecidablePred P] (k : α → Int) :
    ∀ (l : List α) (v0 : Int) (a : α), a ∈ l → P a →
      k a ≤ l.foldl (fun v a => if P a then (if v < k a then k a else v) else v) v0 := by
  intro l
  induction l with
  | nil => intro v0 a h; simp at h
  | cons a0 l ih =>
    intro v0 a ha hP
    rw [List.foldl_cons]
    rcases List.mem_cons.mp ha with rfl | ha
    · refine le_trans ?_ (foldl_condMax_ge_init P k l _)
      rw [if_pos hP]
      split <;> omega
    · exact ih _ a ha hP

theorem foldl_condMax_cases {α : Type} (P : α → Prop) [DecidablePred P] (k : α → Int) :
    ∀ (l : List α) (v0 : Int),
      l.foldl (fun v a => if P a then (if v < k a then k a else v) else v) v0 = v0 ∨
      ∃ a ∈ l, P a ∧
        l.foldl (fun v a => if P a then (if v < k a then k a else v) else v) v0 = k a := by
  intro l
  induction l with
  | nil => intro v0; exact Or.inl rfl
  | cons a0 l ih =>
    intro v0
    rw [List.foldl_cons]
    by_cases hP : P a0
    · rw [if_pos hP]
      by_cases hlt : v0 < k a0
      · rw [if_pos hlt]
        rcases ih (k a0) with h | ⟨a, ha, hPa, h⟩
        · exact Or.inr ⟨a0, List.mem_cons_self _ _, hP, h⟩
        · exact Or.inr ⟨a, List.mem_cons_of_mem _ ha, hPa, h⟩
      · rw [if_neg hlt]
        rcases ih v0 with h | ⟨a, ha, hPa, h⟩
        · exact Or.inl h
        · exact Or.inr ⟨a, List.mem_cons_of_mem _ ha, hPa, h⟩
    · rw [if_neg hP]
      rcases ih v0 with h | ⟨a, ha, hPa, h⟩
      · exact Or.inl h
      · exact Or.inr ⟨a, List.mem_cons_of_mem _ ha, hPa, h⟩

theorem boxScan_eq_pairs (N : Nat) (gs : List Int) :
    boxScan N gs = (cellPairs N).foldl (fun b p => boxStep N gs b p.1 p.2)
      ⟨2147483647, 2147483647, -2147483648, -2147483648⟩ := by
  unfold boxScan
  exact foldl_nested N (fun b r c => boxStep N gs b r c) _

theorem boxFold_minR (N : Nat) (gs : List Int) :
    ∀ (l : List (Nat × Nat)) (b : Box),
      (l.foldl (fun b p => boxStep N gs b p.1 p.2) b).minR =
        l.foldl (fun v p => if gs.getD (N * p.1 + p.2) 0 ≠ 0 then
          (if (p.1 : Int) < v then (p.1 : Int) else v) else v) b.minR := by
  intro l
  induction l with
  | nil => intro b; rfl
  | cons p l ih =>
    intro b
    rw [List.foldl_cons, List.foldl_cons, ih]
    have h : (boxStep N gs b p.1 p.2).minR =
        (if gs.getD (N * p.1 + p.2) 0 ≠ 0 then
          (if (p.1 : Int) < b.minR then (p.1 : Int) else b.minR) else b.minR) := by
      unfold boxStep
      split <;> rfl
    rw [h]

theorem boxFold_minC (N : Nat) (gs : List Int) :
    ∀ (l : List (Nat × Nat)) (b : Box),
      (l.foldl (fun b p => boxStep N gs b p.1 p.2) b).minC =
        l.foldl (fun v p => if gs.getD (N * p.1 + p.2) 0 ≠ 0 then
          (if (p.2 : Int) < v then (p.2 : Int) else v) else v) b.minC := by
  intro l
  induction l with
  | nil => intro b; rfl
  | cons p l ih =>
    intro b
    rw [List.foldl_cons, List.foldl_cons, ih]
    have h : (boxStep N gs b p.1 p.2).minC =
        (if gs.getD (N * p.1 + p.2) 0 ≠ 0 then
          (if (p.2 : Int) < b.minC then (p.2 : Int) else b.minC) else b.minC) := by
      unfold boxStep
      split <;> rfl
    rw [h]

theorem boxFold_maxR (N : Nat) (gs : List Int) :
    ∀ (l : List (Nat × Nat)) (b : Box),
      (l.foldl (fun b p => boxStep N gs b p.1 p.2) b).maxR =
        l.foldl (fun v p => if gs.getD (N * p.1 + p.2) 0 ≠ 0 then
          (if v < (p.1 : Int) then (p.1 : Int) else v) else v) b.maxR := by
  intro l
  induction l with
  | nil => intro b; rfl
  | cons p l ih =>
    intro b
    rw [List.foldl_cons, List.foldl_cons, ih]
    have h : (boxStep N gs b p.1 p.2).maxR =
        (if gs.getD (N * p.1 + p.2) 0 ≠ 0 then
          (if b.maxR < (p.1 : Int) then (p.1 : Int) else b.maxR) else b.maxR) := by
      unfold boxStep
      split <;> rfl
    rw [h]

theorem boxFold_maxC (N : Nat) (gs : List Int) :
    ∀ (l : List (Nat × Nat)) (b : Box),
      (l.foldl (fun b p => boxStep N gs b p.1 p.2) b).maxC =
        l.foldl (fun v p => if gs.getD (N * p.1 + p.2) 0 ≠ 0 then
          (if v < (p.2 : Int) then (p.2 : Int) else v) else v) b.maxC := by
  intro l
  induction l with
  | nil => intro b; rfl
  | cons p l ih =>
    intro b
    rw [List.foldl_cons, List.foldl_cons, ih]
    have h : (boxStep N gs b p.1 p.2).maxC =
        (if gs.getD (N * p.1 + p.2) 0 ≠ 0 then
          (if b.maxC < (p.2 : Int) then (p.2 : Int) else b.maxC) else b.maxC) := by
      unfold boxStep
      split <;> rfl
    rw [h]

/-- Characterization of the bounding-box scan on a board with at least one
occupied cell: each of the four extent fields equals the exact minimum /
maximum coordinate over the occupied cells. -/
theorem boxScan_char (N : Nat) (gs : List Int) (hN : N ≤ 2147483647)
    (hocc : ∃ r c, r < N ∧ c < N ∧ gs.getD (N * r + c) 0 ≠ 0) :
    ∃ (mr mc Mr Mc : Nat),
      (boxScan N gs).minR = (mr : Int) ∧ (boxScan N gs).minC = (mc : Int) ∧
      (boxScan N gs).maxR = (Mr : Int) ∧ (boxScan N gs).maxC = (Mc : Int) ∧
      ((∃ c, c < N ∧ gs.getD (N * mr + c) 0 ≠ 0) ∧
        ∀ r c, r < N → c < N → gs.getD (N * r + c) 0 ≠ 0 → mr ≤ r) ∧
      ((∃ r, r < N ∧ gs.getD (N * r + mc) 0 ≠ 0) ∧
        ∀ r c, r < N → c < N → gs.getD (N * r + c) 0 ≠ 0 → mc ≤ c) ∧
      ((∃ c, c < N ∧ gs.getD (N * Mr + c) 0 ≠ 0) ∧
        ∀ r c, r < N → c < N → gs.getD (N * r + c) 0 ≠ 0 → r ≤ Mr) ∧
      ((∃ r, r < N ∧ gs.getD (N * r + Mc) 0 ≠ 0) ∧
        ∀ r c, r < N → c < N → gs.getD (N * r + c) 0 ≠ 0 → c ≤ Mc) := by
  obtain ⟨r0, c0, hr0, hc0, ho⟩ := hocc
  have hp0 : ((r0, c0) : Nat × Nat) ∈ cellPairs N := (mem_cellPairs N _).mpr ⟨hr0, hc0⟩
  have eMinR : (boxScan N gs).minR = (cellPairs N).foldl
      (fun v p => if gs.getD (N * p.1 + p.2) 0 ≠ 0 then
        (if (p.1 : Int) < v then (p.1 : Int) else v) else v) 2147483647 := by
    rw [boxScan_eq_pairs, boxFold_minR]
  have eMinC : (boxScan N gs).minC = (cellPairs N).foldl
      (fun v p => if gs.getD (N * p.1 + p.2) 0 ≠ 0 then
        (if (p.2 : Int) < v then (p.2 : Int) else v) else v) 2147483647 := by
    rw [boxScan_eq_pairs, boxFold_minC]
  have eMaxR : (boxScan N gs).maxR = (cellPairs N).foldl
      (fun v p => if gs.getD (N * p.1 + p.2) 0 ≠ 0 then
        (if v < (p.1 : Int) then (p.1 : Int) else v) else v) (-2147483648) := by
    rw [boxScan_eq_pairs, boxFold_maxR]
  have eMaxC : (boxScan N gs).maxC = (cellPairs N).foldl
      (fun v p => if gs.getD (N * p.1 + p.2) 0 ≠ 0 then
        (if v < (p.2 : Int) then (p.2 : Int) else v) else v) (-2147483648) := by
    rw [boxScan_eq_pairs, boxFold_maxC]
  obtain ⟨pa, hpa, hPa, ha⟩ :
      ∃ p ∈ cellPairs N, gs.getD (N * p.1 + p.2) 0 ≠ 0 ∧
        (boxScan N gs).minR = (p.1 : Int) := by
    rcases foldl_condMin_cases (fun p : Nat × Nat => gs.getD (N * p.1 + p.2) 0 ≠ 0)
        (fun p => (p.1 : Int)) (cellPairs N) 2147483647 with h | ⟨p, hp, hPp, h⟩
    · exfalso
      have hb := foldl_condMin_le (fun p : Nat × Nat => gs.getD (N * p.1 + p.2) 0 ≠ 0)
        (fun p => (p.1 : Int)) (cellPairs N) 2147483647 (r0, c0) hp0 ho
      rw [h] at hb
      simp only at hb
      omega
    · exact ⟨p, hp, hPp, eMinR.trans h⟩
  obtain ⟨pb, hpb, hPb, hb⟩ :
      ∃ p ∈ cellPairs N, gs.getD (N * p.1 + p.2) 0 ≠ 0 ∧
        (boxScan N gs).minC = (p.2 : Int) := by
    rcases foldl_condMin_cases (fun p : Nat × Nat => gs.getD (N * p.1 + p.2) 0 ≠ 0)
        (fun p => (p.2 : Int)) (cellPairs N) 2147483647 with h | ⟨p, hp, hPp, h⟩
    · exfalso
      have hb := foldl_condMin_le (fun p : Nat × Nat => gs.getD (N * p.1 + p.2) 0 ≠ 0)
        (fun p => (p.2 : Int)) (cellPairs N) 2147483647 (r0, c0) hp0 ho
      rw [h] at hb
      simp only at hb
      omega
    · exact ⟨p, hp, hPp, eMinC.trans h⟩
  obtain ⟨pc, hpc, hPc, hc⟩ :
      ∃ p ∈ cellPairs N, gs.getD (N * p.1 + p.2) 0 ≠ 0 ∧
        (boxScan N gs).maxR = (p.1 : Int) := by
    rcases foldl_condMax_cases (fun p : Nat × Nat => gs.getD (N * p.1 + p.2) 0 ≠ 0)
        (fun p => (p.1 : Int)) (cellPairs N) (-2147483648) with h | ⟨p, hp, hPp, h⟩
    · exfalso
      have hb := foldl_condMax_ge (fun p : Nat × Nat => gs.getD (N * p.1 + p.2) 0 ≠ 0)
        (fun p => (p.1 : Int)) (cellPairs N) (-2147483648) (r0, c0) hp0 ho
      rw [h] at hb
      simp only at hb
      omega
    · exact ⟨p, hp, hPp, eMaxR.trans h⟩
  obtain ⟨pd, hpd, hPd, hd⟩ :
      ∃ p ∈ cellPairs N, gs.getD (N * p.1 + p.2) 0 ≠ 0 ∧
        (boxScan N gs).maxC = (p.2 : Int) := by
    rcases foldl_condMax_cases (fun p : Nat × Nat => gs.getD (N * p.1 + p.2) 0 ≠ 0)
        (fun p => (p.2 : Int)) (cellPairs N) (-2147483648) with h | ⟨p, hp, hPp, h⟩
    · exfalso
      have hb := foldl_condMax_ge (fun p : Nat × Nat => gs.getD (N * p.1 + p.2) 0 ≠ 0)
        (fun p => (p.2 : Int)) (cellPairs N) (-2147483648) (r0, c0) hp0 ho
      rw [h] at hb
      simp only at hb
      omega
    · exact ⟨p, hp, hPp, eMaxC.trans h⟩
  refine ⟨pa.1, pb.2, pc.1, pd.2, ha, hb, hc, hd, ?_, ?_, ?_, ?_⟩
  · refine ⟨⟨pa.2, ((mem_cellPairs N pa).mp hpa).2, hPa⟩, ?_⟩
    intro r c h1 h2 h3
    have hle := foldl_condMin_le (fun p : Nat × Nat => gs.getD (N * p.1 + p.2) 0 ≠ 0)
      (fun p => (p.1 : Int)) (cellPairs N) 2147483647 (r, c)
      ((mem_cellPairs N _).mpr ⟨h1, h2⟩) h3
    rw [← eMinR, ha] at hle
    simp only at hle
    exact_mod_cast hle
  · refine ⟨⟨pb.1, ((mem_cellPairs N pb).mp hpb).1, hPb⟩, ?_⟩
    intro r c h1 h2 h3
    have hle := foldl_condMin_le (fun p : Nat × Nat => gs.getD (N * p.1 + p.2) 0 ≠ 0)
      (fun p => (p.2 : Int)) (cellPairs N) 2147483647 (r, c)
      ((mem_cellPairs N _).mpr ⟨h1, h2⟩) h3
    rw [← eMinC, hb] at hle
    simp only at hle
    exact_mod_cast hle
  · refine ⟨⟨pc.2, ((mem_cellPairs N pc).mp hpc).2, hPc⟩, ?_⟩
    intro r c h1 h2 h3
    have hle := foldl_condMax_ge (fun p : Nat × Nat => gs.getD (N * p.1 + p.2) 0 ≠ 0)
      (fun p => (p.1 : Int)) (cellPairs N) (-2147483648) (r, c)
      ((mem_cellPairs N _).mpr ⟨h1, h2⟩) h3
    rw [← eMaxR, hc] at hle
    simp only at hle
    exact_mod_cast hle
  · refine ⟨⟨pd.1, ((mem_cellPairs N pd).mp hpd).1, hPd⟩, ?_⟩
    intro r c h1 h2 h3
    have hle := foldl_condMax_ge (fun p : Nat × Nat => gs.getD (N * p.1 + p.2) 0 ≠ 0)
      (fun p => (p.2 : Int)) (cellPairs N) (-2147483648) (r, c)
      ((mem_cellPairs N _).mpr ⟨h1, h2⟩) h3
    rw [← eMaxC, hd] at hle
    simp only at hle
    exact_mod_cast hle

/-- Claim C6 — candidate generation.  On a board with at least one occupied
cell (and a board size no greater than `INT_MAX`), `searchMovesOrdered`
returns exactly the empty, non-remote cells inside the occupied-cell
bounding box expanded by 2 in each direction and clamped to the board
(minimum coordinate floored at 2, maximum ceiling `N - 3`, both applied
before the ±2 expansion), each scored by `evalMove` for the given player
(and with the generation-time `actual_score` 0), and the returned list is
sorted in descending order of `heuristic_val`.  The bounding box is
characterized abstractly: `mr`/`Mr` (`mc`/`Mc`) are the least/greatest
occupied row (column). -/
theorem c6_search_moves_ordered (env : Env) (gs : List Int) (player : Int)
    (hN : env.size ≤ 2147483647)
    (hocc : ∃ r c, r < env.size ∧ c < env.size ∧ gs.getD (env.size * r + c) 0 ≠ 0) :
    ∃ (mr mc Mr Mc : Nat),
      ((∃ c, c < env.size ∧ gs.getD (env.size * mr + c) 0 ≠ 0) ∧
        ∀ r c, r < env.size → c < env.size → gs.getD (env.size * r + c) 0 ≠ 0 → mr ≤ r) ∧
      ((∃ r, r < env.size ∧ gs.getD (env.size * r + mc) 0 ≠ 0) ∧
        ∀ r c, r < env.size → c < env.size → gs.getD (env.size * r + c) 0 ≠ 0 → mc ≤ c) ∧
      ((∃ c, c < env.size ∧ gs.getD (env.size * Mr + c) 0 ≠ 0) ∧
        ∀ r c, r < env.size → c < env.size → gs.getD (env.size * r + c) 0 ≠ 0 → r ≤ Mr) ∧
      ((∃ r, r < env.size ∧ gs.getD (env.size * r + Mc) 0 ≠ 0) ∧
        ∀ r c, r < env.size → c < env.size → gs.getD (env.size * r + c) 0 ≠ 0 → c ≤ Mc) ∧
      (∀ m : Move, m ∈ searchMovesOrdered env gs player ↔
        ((if (mr : Int) < 2 then 2 else (mr : Int)) - 2 ≤ m.r ∧
         m.r ≤ (if (env.size : Int) ≤ (Mr : Int) + 2 then (env.size : Int) - 3
           else (Mr : Int)) + 2 ∧
         (if (mc : Int) < 2 then 2 else (mc : Int)) - 2 ≤ m.c ∧
         m.c ≤ (if (env.size : Int) ≤ (Mc : Int) + 2 then (env.size : Int) - 3
           else (Mc : Int)) + 2 ∧
         getCell env.size gs m.r m.c = 0 ∧
         env.remoteCell gs m.r m.c = false ∧
         m.heuristic_val = env.evalMove gs m.r m.c player ∧
         m.actual_score = 0)) ∧
      (searchMovesOrdered env gs player).Pairwise movesLE := by
  obtain ⟨mr, mc, Mr, Mc, hBa, hBb, hBc, hBd, hA, hB, hC, hD⟩ :=
    boxScan_char env.size gs hN hocc
  refine ⟨mr, mc, Mr, Mc, hA, hB, hC, hD, ?_, ?_⟩
  · intro m
    rw [mem_searchMovesOrdered]
    show m ∈ genMoves env gs player ↔ _
    simp only [genMoves]
    rw [hBa, hBb, hBc, hBd]
    rw [show (if (mr : Int) - 2 < 0 then (2 : Int) else (mr : Int)) =
      (if (mr : Int) < 2 then 2 else (mr : Int)) from by split_ifs <;> omega]
    rw [show (if (mc : Int) - 2 < 0 then (2 : Int) else (mc : Int)) =
      (if (mc : Int) < 2 then 2 else (mc : Int)) from by split_ifs <;> omega]
    rw [mem_scanCells_iff]
    constructor
    · rintro ⟨r, hr, c, hcc, h1, h2, rfl⟩
      obtain ⟨hr1, hr2⟩ := (mem_intRange _ _ r).mp hr
      obtain ⟨hc1, hc2⟩ := (mem_intRange _ _ c).mp hcc
      exact ⟨hr1, hr2, hc1, hc2, h1, h2, rfl, rfl⟩
    · rintro ⟨b1, b2, b3, b4, h1, h2, h3, h4⟩
      refine ⟨m.r, (mem_intRange _ _ _).mpr ⟨b1, b2⟩, m.c,
        (mem_intRange _ _ _).mpr ⟨b3, b4⟩, h1, h2, ?_⟩
      obtain ⟨r', c', hv', act'⟩ := m
      simp only at h3 h4 ⊢
      rw [h3, h4]
  · exact List.sorted_insertionSort movesLE (genMoves env gs player)

theorem c6_search_moves_ordered_witness :
    envC4.size ≤ 2147483647 ∧
    (∃ r c, r < envC4.size ∧ c < envC4.size ∧
      gsOneStone.getD (envC4.size * r + c) 0 ≠ 0) ∧
    (∃ (mr mc Mr Mc : Nat),
      ((∃ c, c < envC4.size ∧ gsOneStone.getD (envC4.size * mr + c) 0 ≠ 0) ∧
        ∀ r c, r < envC4.size → c < envC4.size →
          gsOneStone.getD (envC4.size * r + c) 0 ≠ 0 → mr ≤ r) ∧
      ((∃ r, r < envC4.size ∧ gsOneStone.getD (envC4.size * r + mc) 0 ≠ 0) ∧
        ∀ r c, r < envC4.size → c < envC4.size →
          gsOneStone.getD (envC4.size * r + c) 0 ≠ 0 → mc ≤ c) ∧
      ((∃ c, c < envC4.size ∧ gsOneStone.getD (envC4.size * Mr + c) 0 ≠ 0) ∧
        ∀ r c, r < envC4.size → c < envC4.size →
          gsOneStone.getD (envC4.size * r + c) 0 ≠ 0 → r ≤ Mr) ∧
      ((∃ r, r < envC4.size ∧ gsOneStone.getD (envC4.size * r + Mc) 0 ≠ 0) ∧
        ∀ r c, r < envC4.size → c < envC4.size →
          gsOneStone.getD (envC4.size * r + c) 0 ≠ 0 → c ≤ Mc) ∧
      (∀ m : Move, m ∈ searchMovesOrdered envC4 gsOneStone 1 ↔
        ((if (mr : Int) < 2 then 2 else (mr : Int)) - 2 ≤ m.r ∧
         m.r ≤ (if (envC4.size : Int) ≤ (Mr : Int) + 2 then (envC4.size : Int) - 3
           else (Mr : Int)) + 2 ∧
         (if (mc : Int) < 2 then 2 else (mc : Int)) - 2 ≤ m.c ∧
         m.c ≤ (if (envC4.size : Int) ≤ (Mc : Int) + 2 then (envC4.size : Int) - 3
           else (Mc : Int)) + 2 ∧
         getCell envC4.size gsOneStone m.r m.c = 0 ∧
         envC4.remoteCell gsOneStone m.r m.c = false ∧
         m.heuristic_val = envC4.evalMove gsOneStone m.r m.c 1 ∧
         m.actual_score = 0)) ∧
      (searchMovesOrdered envC4 gsOneStone 1).Pairwise movesLE) :=
  ⟨by decide, ⟨1, 1, by decide, by decide, by decide⟩,
   c6_search_moves_ordered envC4 gsOneStone 1 (by decide)
     ⟨1, 1, by decide, by decide, by decide⟩⟩
